import Mathlib

/-!
Shallow embedding of `noir-lang/sparse_array` (`src/comptime/src/lib.rs`).

`FieldElement` (`num_bigint::BigUint`) is modelled as `Nat`; the generic value
type `T` is a type parameter with `Inhabited` providing `T::default()`.
Fatal `assert!`/panic paths are modelled by `Option`: `none` means the Rust
code aborts.  Counted `for` loops are embedded as structural recursion on the
number of remaining iterations; the `while` loop in `get` and the recursion in
`quicksort_recursive` use well-founded recursion on the same measure that
makes the Rust code terminate.
-/

/-- The BN254 field modulus from the `FIELD_MODULUS` lazy static. -/
def FIELD_MODULUS : Nat :=
  21888242871839275222246405745257275088696311157297823662689037894645226208583

/-- Result of `sort_advanced`: the sorted keys and the shuffle indices. -/
structure SortResult where
  sorted : List Nat
  sort_indices : List Nat
deriving Repr, DecidableEq

/-- The `SparseArray<T>` struct: keys, values and the declared maximum. -/
structure SparseArray (T : Type) where
  keys : List Nat
  values : List T
  maximum : Nat
deriving Repr, DecidableEq

/-- Rust `Vec::swap i j`: set position `i` to the old `arr[j]` and position
`j` to the old `arr[i]`. -/
def listSwap (arr : List Nat) (i j : Nat) : List Nat :=
  (arr.set i (arr.getD j 0)).set j (arr.getD i 0)

/-- One pass of the `for j in low..high` loop of `partition`, by recursion on
the number of remaining iterations `k` (so `j` ranges over `[j, j+k)` and the
call sites use `k = high - low`, `j = low`).  The comparator is the concrete
`|a, b| a < b` closure that `quicksort` passes.  State is `(arr, i)`. -/
def partitionLoop (high : Nat) : Nat → List Nat → Nat → Nat → List Nat × Nat
  | 0, arr, i, _ => (arr, i)
  | k + 1, arr, i, j =>
    if arr.getD j 0 < arr.getD high 0 then
      partitionLoop high k (listSwap arr i j) (i + 1) (j + 1)
    else
      partitionLoop high k arr i (j + 1)

/-- Rust `partition(arr, low, high, compare)` with `compare = (<)`:
Lomuto partition with the last element as pivot. -/
def partitionL (arr : List Nat) (low high : Nat) : List Nat × Nat :=
  let p := partitionLoop high (high - low) arr low low
  (listSwap p.1 p.2 high, p.2)

theorem partitionLoop_snd_bounds (high : Nat) :
    ∀ k arr i j, i ≤ (partitionLoop high k arr i j).2 ∧
      (partitionLoop high k arr i j).2 ≤ i + k := by
  intro k
  induction k with
  | zero => intro arr i j; simp [partitionLoop]
  | succ k ih =>
    intro arr i j
    rw [partitionLoop]
    by_cases h : arr.getD j 0 < arr.getD high 0
    · simp only [if_pos h]
      have := ih (listSwap arr i j) (i + 1) (j + 1)
      omega
    · simp only [if_neg h]
      have := ih arr i (j + 1)
      omega

theorem partitionL_snd_bounds (arr : List Nat) (low high : Nat) :
    low ≤ (partitionL arr low high).2 ∧ (partitionL arr low high).2 ≤ high ⊔ low := by
  have := partitionLoop_snd_bounds high (high - low) arr low low
  simp only [partitionL]
  omega

/-- Rust `quicksort_recursive(arr, low, high, compare)` with `compare = (<)`.
Termination is on the width `high - low` of the segment, using the bounds on
the partition point. -/
def quicksortRecursive (arr : List Nat) (low high : Nat) : List Nat :=
  if _h : low < high then
    let pr := partitionL arr low high
    let a1 := if _h1 : pr.2 > 0 then quicksortRecursive pr.1 low (pr.2 - 1) else pr.1
    if _h2 : pr.2 < high then quicksortRecursive a1 (pr.2 + 1) high else a1
  else arr
termination_by high - low
decreasing_by
  · have := partitionL_snd_bounds arr low high
    omega
  · have := partitionL_snd_bounds arr low high
    omega

/-- Rust `quicksort(arr, compare)` with `compare = (<)`. -/
def quicksort (arr : List Nat) : List Nat :=
  if arr.length > 1 then quicksortRecursive arr 0 (arr.length - 1) else arr

example : quicksort [5, 0] = [0, 5] := by
  simp [quicksort, quicksortRecursive, partitionL, partitionLoop, listSwap]

example : quicksort [3, 1, 2] = [1, 2, 3] := by
  simp [quicksort, quicksortRecursive, partitionL, partitionLoop, listSwap]

/-- The inner `for j in 0..n` scan of `get_shuffle_indices`: because of the
`!found` guard the Rust loop selects the first `j` with `!shuffle_mask[j] &&
lhs[i] == rhs[j]`.  `k` counts the remaining iterations, so the scan covers
`[j, j+k)` and call sites use `j = 0`, `k = n`. -/
def findSlot (x : Nat) (rhs : List Nat) (mask : List Bool) : Nat → Nat → Option Nat
  | _, 0 => none
  | j, k + 1 =>
    if mask.getD j false = false ∧ rhs.getD j 0 = x then some j
    else findSlot x rhs mask (j + 1) k

/-- The outer `for i in 0..n` loop of `get_shuffle_indices`; a failing
`assert!(found, ...)` is `none`.  State is `(shuffle_indices, shuffle_mask)`;
`k` counts the remaining iterations. -/
def shuffleLoop (lhs rhs : List Nat) (n : Nat) :
    Nat → Nat → List Nat → List Bool → Option (List Nat × List Bool)
  | _, 0, ind, mask => some (ind, mask)
  | i, k + 1, ind, mask =>
    match findSlot (lhs.getD i 0) rhs mask 0 n with
    | none => none
    | some j => shuffleLoop lhs rhs n (i + 1) k (ind.set i j) (mask.set j true)

/-- Rust `get_shuffle_indices(lhs, rhs)`; `shuffle_indices` and
`shuffle_mask` start as `vec![0; n]` and `vec![false; n]`. -/
def get_shuffle_indices (lhs rhs : List Nat) : Option (List Nat) :=
  let n := lhs.length
  (shuffleLoop lhs rhs n 0 n (List.replicate n 0) (List.replicate n false)).map Prod.fst

/-- Rust `sort_advanced(input)`: quicksort, recover the shuffle indices, then
the verification loop `for i in 0..(sorted.len() - 1)`.  On an empty input the
bound `sorted.len() - 1` underflows `usize`, which is a fatal error
(`none`); the loop's `assert!` of ascending order is the final condition. -/
def sort_advanced (input : List Nat) : Option SortResult :=
  let sorted := quicksort input
  match get_shuffle_indices input sorted with
  | none => none
  | some si =>
    if sorted.length = 0 then none
    else if (List.range (sorted.length - 1)).all
        (fun i => !decide (sorted.getD (i + 1) 0 < sorted.getD i 0)) then
      some ⟨sorted, si⟩
    else none

example : sort_advanced [5, 0, 7] =
    some ⟨[0, 5, 7], [1, 0, 2]⟩ := by
  simp [sort_advanced, get_shuffle_indices, shuffleLoop, findSlot, quicksort,
    quicksortRecursive, partitionL, partitionLoop, listSwap, List.range_succ]

example : sort_advanced [] = none := by
  simp [sort_advanced, get_shuffle_indices, shuffleLoop, quicksort]

/-- The `for i in 0..n` loop populating
`result.values[sorted.sort_indices[i] + 2] = values[i]`.  The written slots
`sort_indices[i] + 2 ≤ n + 1` are always within the vector of length `n + 3`
(`shuffleLoop` only produces indices `< n`), so `List.set` models the Rust
index assignment exactly on every reachable input. -/
def populateValues {T : Type} [Inhabited T] (si : List Nat) (values : List T)
    (n : Nat) (init : List T) : List T :=
  (List.range n).foldl (fun vs i => vs.set (si.getD i 0 + 2) (values.getD i default)) init

/-- Rust `SparseArray::create(keys, values, size)`.  In order: the
`assert_eq!` on lengths, the `BigUint` subtraction `size - 1` (which panics
when `size = 0`), `sort_advanced`, the population of `values`, the two
boundary overrides (note they test the raw `keys[0]` and `keys[n-1]`), and
the three boundary `assert!`s. -/
def SparseArray.create {T : Type} [Inhabited T]
    (keys : List Nat) (values : List T) (size : Nat) : Option (SparseArray T) :=
  let n := keys.length
  if n ≠ values.length then none
  else if size = 0 then none
  else
    let maximum := size - 1
    match sort_advanced keys with
    | none => none
    | some sorted =>
      let rkeys := 0 :: (sorted.sorted ++ [maximum])
      let v1 := populateValues sorted.sort_indices values n (List.replicate (n + 3) default)
      let v2 := v1.set 0 default
      let v3 := v2.set 1 (if keys.getD 0 0 = 0 then values.getD 0 default else default)
      let v4 := v3.set (n + 2)
        (if keys.getD (n - 1) 0 = maximum then values.getD (n - 1) default else default)
      if ¬ sorted.sorted.getD 0 0 < FIELD_MODULUS then none
      else if ¬ maximum < FIELD_MODULUS then none
      else if ¬ sorted.sorted.getD (n - 1) 0 ≤ maximum then none
      else some ⟨rkeys, v4, maximum⟩

/-- The `while left + 1 < right` binary-search loop of `get`, returning the
final `left`.  Terminates because `right - left` shrinks. -/
def bsearchLoop (keys : List Nat) (index : Nat) (left right : Nat) : Nat :=
  if _h : left + 1 < right then
    let mid := (left + right) / 2
    if keys.getD mid 0 ≤ index then bsearchLoop keys index mid right
    else bsearchLoop keys index left mid
  else left
termination_by right - left
decreasing_by
  · have h2 : left + 1 ≤ (left + right) / 2 := by
      rw [Nat.le_div_iff_mul_le (by norm_num)]
      omega
    have h3 : (left + right) / 2 < right := by
      rw [Nat.div_lt_iff_lt_mul (by norm_num)]
      omega
    omega
  · have h2 : left + 1 ≤ (left + right) / 2 := by
      rw [Nat.le_div_iff_mul_le (by norm_num)]
      omega
    have h3 : (left + right) / 2 < right := by
      rw [Nat.div_lt_iff_lt_mul (by norm_num)]
      omega
    omega

/-- Rust `SparseArray::get(index)`, with every vector access total
(`getD`); `SparseArray.getChecked` below re-traces the same accesses
fallibly and is proven to agree on every constructed array. -/
def SparseArray.get {T : Type} [Inhabited T] (arr : SparseArray T) (index : Nat) : T :=
  if arr.maximum < index then arr.values.getD 0 default
  else
    let left := bsearchLoop arr.keys index 0 (arr.keys.length - 1)
    if arr.keys.getD left 0 = index then arr.values.getD (left + 1) default
    else arr.values.getD 0 default

/-- Checked variant of the binary-search loop: `none` when `keys[mid]` would
be out of bounds (a Rust index panic). -/
def bsearchLoopChecked (keys : List Nat) (index : Nat) (left right : Nat) : Option Nat :=
  if _h : left + 1 < right then
    let mid := (left + right) / 2
    match keys.get? mid with
    | none => none
    | some km =>
      if km ≤ index then bsearchLoopChecked keys index mid right
      else bsearchLoopChecked keys index left mid
  else some left
termination_by right - left
decreasing_by
  · have h2 : left + 1 ≤ (left + right) / 2 := by
      rw [Nat.le_div_iff_mul_le (by norm_num)]
      omega
    have h3 : (left + right) / 2 < right := by
      rw [Nat.div_lt_iff_lt_mul (by norm_num)]
      omega
    omega
  · have h2 : left + 1 ≤ (left + right) / 2 := by
      rw [Nat.le_div_iff_mul_le (by norm_num)]
      omega
    have h3 : (left + right) / 2 < right := by
      rw [Nat.div_lt_iff_lt_mul (by norm_num)]
      omega
    omega

/-- Rust `SparseArray::get(index)` with every vector access checked:
`none` models an index panic.  (`self.keys.len() - 1` cannot underflow on a
constructed array, whose `keys` has length `n + 2 ≥ 3`.) -/
def SparseArray.getChecked {T : Type} [Inhabited T]
    (arr : SparseArray T) (index : Nat) : Option T :=
  if arr.maximum < index then arr.values.get? 0
  else
    match bsearchLoopChecked arr.keys index 0 (arr.keys.length - 1) with
    | none => none
    | some left =>
      match arr.keys.get? left with
      | none => none
      | some kl =>
        if kl = index then arr.values.get? (left + 1) else arr.values.get? 0

/-- Rust `SparseArray::get_maximum()`. -/
def SparseArray.get_maximum {T : Type} (arr : SparseArray T) : Nat :=
  arr.maximum

example :
    SparseArray.create [1, 99, 7, 5] ([123, 101112, 789, 456] : List Nat) 100 =
    some ⟨[0, 1, 5, 7, 99, 99], [0, 0, 123, 456, 789, 101112, 0], 99⟩ := by
  simp [SparseArray.create, sort_advanced, get_shuffle_indices, shuffleLoop, findSlot,
    quicksort, quicksortRecursive, partitionL, partitionLoop, listSwap,
    populateValues, List.range_succ]
  norm_num [FIELD_MODULUS]

example :
    (⟨[0, 1, 5, 7, 99, 99], [0, 0, 123, 456, 789, 101112, 0], 99⟩ : SparseArray Nat).get 5 =
      456 := by
  simp [SparseArray.get, bsearchLoop]

example :
    (⟨[0, 1, 5, 7, 99, 99], [0, 0, 123, 456, 789, 101112, 0], 99⟩ : SparseArray Nat).get 6 =
      0 := by
  simp [SparseArray.get, bsearchLoop]

/-- Rust `format!("0x{:08x}", x)`: lowercase hex, zero-padded to at least 8
digits, `0x`-prefixed (longer values keep all their digits). -/
def hexPad8 (x : Nat) : String :=
  let ds := Nat.toDigits 16 x
  "0x" ++ String.mk (List.replicate (8 - ds.length) '0' ++ ds)

/-- Rust `SparseArray::to_noir_string(generic_name)` for `T = BigUint`
values.  Each value goes through `v.to_string().parse::<u32>().unwrap()`,
which is fatal (`none`) when the value does not fit in 32 bits; keys and the
maximum are formatted with `0x{:08x}` directly.  The braces of the Rust
format template are the `\x7b`/`\x7d` escapes. -/
def SparseArray.to_noir_string (arr : SparseArray Nat) (generic_name : Option String) :
    Option String :=
  let keys_str := String.intercalate ", " (arr.keys.map hexPad8)
  if arr.values.all (fun v => decide (v < 4294967296)) then
    let values_str := String.intercalate ", " (arr.values.map hexPad8)
    some ("SparseArray<" ++ toString (arr.keys.length - 2) ++ ", " ++
      generic_name.getD "Field" ++ "> = SparseArray \x7b\n    keys: [" ++ keys_str ++
      "],\n    values: [" ++ values_str ++ "],\n    maximum: " ++ hexPad8 arr.maximum ++
      "\n\x7d;")
  else none

example : hexPad8 4294967295 = "0xffffffff" := by decide
example : hexPad8 123 = "0x0000007b" := by decide

/-- `BigUint::to_u32` from the `ToU32` trait: `self.to_u32_digits()[0]` is
the low 32-bit limb, i.e. reduction mod `2^32`.  (On the value `0` the Rust
indexing would panic, but `create_packed` only calls it when the table has a
non-zero entry, which makes `max_value > 0`.) -/
def toU32 (x : Nat) : Nat := x % 4294967296

/-- The first `for i in 0..table.len()` loop of `create_packed` over the
dense table, with `k` the remaining iterations.  State is
`(max_value, keys, values, small_keys, small_values)`; `max_value` is
updated before the `!= 0` test, exactly as in the source. -/
def packScan (table : List Nat) :
    Nat → Nat → Nat × List Nat × List Nat × List Nat × List Nat →
    Nat × List Nat × List Nat × List Nat × List Nat
  | _, 0, st => st
  | i, k + 1, (mv, ks, vs, sks, svs) =>
    let x := table.getD i 0
    let mv' := if x > mv then x else mv
    if x ≠ 0 then
      if i < 256 then
        packScan table (i + 1) k (mv', ks ++ [i], vs ++ [x], sks ++ [i], svs ++ [x])
      else
        packScan table (i + 1) k (mv', ks ++ [i], vs ++ [x], sks, svs)
    else
      packScan table (i + 1) k (mv', ks, vs, sks, svs)

/-- The inner `for j in 0..max_value.to_u32()` loop of `create_packed` for
one small key: look up `target_key = j * 256 + small_key` with a linear
scan (`List.findIdx` is the first hit, matching the `break`), accumulate
into it or push a new entry. -/
def synthLoop (small_key target_value : Nat) :
    Nat → Nat → List Nat × List Nat → List Nat × List Nat
  | _, 0, st => st
  | j, k + 1, (ks, vs) =>
    let target_key := j * 256 + small_key
    let idx := ks.findIdx (fun x => decide (x = target_key))
    if idx < ks.length then
      synthLoop small_key target_value (j + 1) k
        (ks, vs.set idx (vs.getD idx 0 + target_value))
    else
      synthLoop small_key target_value (j + 1) k (ks ++ [target_key], vs ++ [target_value])

/-- The outer `for i in 0..small_keys.len()` loop of `create_packed`. -/
def synthOuter (sks svs : List Nat) (bound : Nat) :
    Nat → Nat → List Nat × List Nat → List Nat × List Nat
  | _, 0, st => st
  | i, k + 1, st =>
    synthOuter sks svs bound (i + 1) k
      (synthLoop (sks.getD i 0) (svs.getD i 0 * 256) 0 bound st)

/-- The `(keys, values)` accumulated by `create_packed` just before it calls
`create`. -/
def packedEntries (table : List Nat) : List Nat × List Nat :=
  let scan := packScan table 0 table.length (0, [], [], [], [])
  synthOuter scan.2.2.2.1 scan.2.2.2.2 (toU32 scan.1) 0 scan.2.2.2.1.length
    (scan.2.1, scan.2.2.1)

/-- Rust `SparseArray::create_packed(table, max_size)` for `T = BigUint`. -/
def SparseArray.create_packed (table : List Nat) (max_size : Nat) :
    Option (SparseArray Nat) :=
  let e := packedEntries table
  SparseArray.create e.1 e.2 max_size

example : packedEntries [0, 2, 3] =
    ([1, 2, 257, 513, 258, 514], [514, 771, 512, 512, 768, 768]) := by
  decide

example :
    (SparseArray.to_noir_string
      ⟨[0, 1, 5, 7, 99, 99], [0, 0, 123, 456, 789, 101112, 0], 99⟩ (some "u32")).isSome := by
  decide

/-! ### Generic helpers about `List.getD` and `List.set` -/

theorem getD_set {α : Type} (l : List α) (i t : Nat) (a d : α) :
    (l.set i a).getD t d = if i = t ∧ i < l.length then a else l.getD t d := by
  by_cases h2 : i < l.length
  · simp only [List.getD_eq_getElem?_getD, List.getElem?_set]
    by_cases h1 : i = t
    · subst h1; simp [h2]
    · simp [h1]
  · rw [List.set_eq_of_length_le (Nat.le_of_not_lt h2)]
    simp [h2]

theorem getD_replicate_self {α : Type} (n t : Nat) (d : α) :
    (List.replicate n d).getD t d = d := by
  simp only [List.getD_eq_getElem?_getD, List.getElem?_replicate]
  by_cases h : t < n <;> simp [h]

/-- The working notion of ascending sortedness: any earlier entry is at most
any later in-range entry. -/
def SortedLe (l : List Nat) : Prop :=
  ∀ a b, a ≤ b → b < l.length → l.getD a 0 ≤ l.getD b 0

theorem length_listSwap (arr : List Nat) (i j : Nat) :
    (listSwap arr i j).length = arr.length := by
  simp [listSwap]

theorem getD_listSwap (arr : List Nat) (i j t : Nat) :
    (listSwap arr i j).getD t 0 =
      if j = t ∧ j < arr.length then arr.getD i 0
      else if i = t ∧ i < arr.length then arr.getD j 0
      else arr.getD t 0 := by
  unfold listSwap
  rw [getD_set]
  simp only [List.length_set]
  by_cases hj : j = t ∧ j < arr.length
  · rw [if_pos hj, if_pos hj]
  · rw [if_neg hj, if_neg hj, getD_set]

theorem listSwap_perm (arr : List Nat) (i j : Nat)
    (hi : i < arr.length) (hj : j < arr.length) : (listSwap arr i j).Perm arr := by
  rw [List.perm_iff_count]
  intro a
  have hgi : arr.getD i 0 = arr[i] := List.getD_eq_getElem arr 0 hi
  have hgj : arr.getD j 0 = arr[j] := List.getD_eq_getElem arr 0 hj
  have len1 : j < (arr.set i (arr.getD j 0)).length := by simpa using hj
  unfold listSwap
  rw [List.count_set _ a _ _ len1, List.count_set _ a _ _ hi]
  have hXj' : (arr.set i (arr.getD j 0))[j] = arr[j] := by
    rw [List.getElem_set]
    by_cases hij : i = j
    · rw [if_pos hij, hgj]
    · rw [if_neg hij]
  rw [hXj', hgi, hgj]
  simp only [beq_iff_eq]
  have hci : arr[i] = a → 1 ≤ List.count a arr := fun h =>
    List.one_le_count_iff.mpr (h ▸ List.getElem_mem hi)
  have hcj : arr[j] = a → 1 ≤ List.count a arr := fun h =>
    List.one_le_count_iff.mpr (h ▸ List.getElem_mem hj)
  by_cases ha : arr[i] = a <;> by_cases hb : arr[j] = a
  · have := hci ha; simp [ha, hb]
    all_goals omega
  · have := hci ha; simp [ha, hb]
    all_goals omega
  · have := hcj hb; simp [ha, hb]
    all_goals omega
  · simp [ha, hb]

theorem partitionLoop_length (high : Nat) :
    ∀ k arr i j, (partitionLoop high k arr i j).1.length = arr.length := by
  intro k
  induction k with
  | zero => intro arr i j; simp [partitionLoop]
  | succ k ih =>
    intro arr i j
    rw [partitionLoop]
    by_cases h : arr.getD j 0 < arr.getD high 0
    · rw [if_pos h, ih]
      exact length_listSwap arr i j
    · rw [if_neg h, ih]

theorem partitionLoop_perm (high : Nat) :
    ∀ k arr i j, i ≤ j → j + k ≤ high → high < arr.length →
      ((partitionLoop high k arr i j).1).Perm arr := by
  intro k
  induction k with
  | zero => intro arr i j _ _ _; simp [partitionLoop]
  | succ k ih =>
    intro arr i j hij hjk hh
    rw [partitionLoop]
    by_cases h : arr.getD j 0 < arr.getD high 0
    · rw [if_pos h]
      have hlen : (listSwap arr i j).length = arr.length := length_listSwap arr i j
      have hrec := ih (listSwap arr i j) (i + 1) (j + 1) (by omega) (by omega) (by omega)
      exact hrec.trans (listSwap_perm arr i j (by omega) (by omega))
    · rw [if_neg h]
      exact ih arr i (j + 1) (by omega) (by omega) hh

theorem partitionLoop_untouched (high : Nat) :
    ∀ k arr i j t, i ≤ j → j + k ≤ high → (t < i ∨ high ≤ t) →
      (partitionLoop high k arr i j).1.getD t 0 = arr.getD t 0 := by
  intro k
  induction k with
  | zero => intro arr i j t _ _ _; simp [partitionLoop]
  | succ k ih =>
    intro arr i j t hij hjk ht
    rw [partitionLoop]
    by_cases h : arr.getD j 0 < arr.getD high 0
    · rw [if_pos h]
      have hrec := ih (listSwap arr i j) (i + 1) (j + 1) t (by omega) (by omega) (by omega)
      rw [hrec, getD_listSwap]
      have h1 : ¬ (j = t ∧ j < arr.length) := by omega
      have h2 : ¬ (i = t ∧ i < arr.length) := by omega
      rw [if_neg h1, if_neg h2]
    · rw [if_neg h]
      exact ih arr i (j + 1) t (by omega) (by omega) ht

theorem partitionLoop_pivot (high : Nat) :
    ∀ k arr i j low, low ≤ i → i ≤ j → j + k = high → high < arr.length →
      (∀ t, low ≤ t → t < i → arr.getD t 0 < arr.getD high 0) →
      (∀ t, i ≤ t → t < j → ¬ arr.getD t 0 < arr.getD high 0) →
      (∀ t, low ≤ t → t < (partitionLoop high k arr i j).2 →
        (partitionLoop high k arr i j).1.getD t 0 <
          (partitionLoop high k arr i j).1.getD high 0) ∧
      (∀ t, (partitionLoop high k arr i j).2 ≤ t → t < high →
        ¬ (partitionLoop high k arr i j).1.getD t 0 <
          (partitionLoop high k arr i j).1.getD high 0) := by
  intro k
  induction k with
  | zero =>
    intro arr i j low _ _ hjk _ hA hB
    simp only [partitionLoop]
    exact ⟨hA, fun t h1 h2 => hB t h1 (by omega)⟩
  | succ k ih =>
    intro arr i j low hli hij hjk hh hA hB
    rw [partitionLoop]
    by_cases h : arr.getD j 0 < arr.getD high 0
    · rw [if_pos h]
      have hjh : j < high := by omega
      have hgh : (listSwap arr i j).getD high 0 = arr.getD high 0 := by
        rw [getD_listSwap]
        have h1 : ¬ (j = high ∧ j < arr.length) := by omega
        have h2 : ¬ (i = high ∧ i < arr.length) := by omega
        rw [if_neg h1, if_neg h2]
      apply ih (listSwap arr i j) (i + 1) (j + 1) low (by omega) (by omega) (by omega)
        (by rw [length_listSwap]; omega)
      · intro t hlt hti
        rw [hgh, getD_listSwap]
        have hjlen : j < arr.length := by omega
        by_cases hti' : t = i
        · by_cases hij' : i = j
          · rw [if_pos ⟨by omega, hjlen⟩]
            have h2 : arr.getD i 0 = arr.getD j 0 := by rw [hij']
            omega
          · rw [if_neg (by omega), if_pos ⟨by omega, by omega⟩]
            exact h
        · rw [if_neg (by omega), if_neg (by omega)]
          exact hA t hlt (by omega)
      · intro t hit htj
        rw [hgh, getD_listSwap]
        have hjlen : j < arr.length := by omega
        by_cases htj' : t = j
        · rw [if_pos ⟨by omega, hjlen⟩]
          exact hB i (le_refl i) (by omega)
        · rw [if_neg (by omega), if_neg (by omega)]
          exact hB t (by omega) (by omega)
    · rw [if_neg h]
      apply ih arr i (j + 1) low hli (by omega) (by omega) hh hA
      intro t hit htj
      by_cases htj' : t = j
      · subst htj'; exact h
      · exact hB t hit (by omega)

theorem partitionL_spec (arr : List Nat) (low high : Nat)
    (hlh : low ≤ high) (hhl : high < arr.length) :
    (partitionL arr low high).1.length = arr.length ∧
    ((partitionL arr low high).1).Perm arr ∧
    low ≤ (partitionL arr low high).2 ∧ (partitionL arr low high).2 ≤ high ∧
    (∀ t, t < low ∨ high < t →
      (partitionL arr low high).1.getD t 0 = arr.getD t 0) ∧
    (∀ t, low ≤ t → t < (partitionL arr low high).2 →
      (partitionL arr low high).1.getD t 0 <
        (partitionL arr low high).1.getD (partitionL arr low high).2 0) ∧
    (∀ t, (partitionL arr low high).2 < t → t ≤ high →
      (partitionL arr low high).1.getD (partitionL arr low high).2 0 ≤
        (partitionL arr low high).1.getD t 0) := by
  have hbounds := partitionLoop_snd_bounds high (high - low) arr low low
  have hlen := partitionLoop_length high (high - low) arr low low
  have hperm := partitionLoop_perm high (high - low) arr low low (le_refl low) (by omega) hhl
  have hpivot := partitionLoop_pivot high (high - low) arr low low low (le_refl low)
    (le_refl low) (by omega) hhl (by omega) (by omega)
  have huntouched := fun t ht => partitionLoop_untouched high (high - low) arr low low t
    (le_refl low) (by omega) ht
  set a := (partitionLoop high (high - low) arr low low).1 with ha
  set p := (partitionLoop high (high - low) arr low low).2 with hp
  have hplen : p ≤ high := by omega
  have hlowp : low ≤ p := by omega
  have halen : a.length = arr.length := hlen
  have hswap_len : (listSwap a p high).length = arr.length := by
    rw [length_listSwap]; exact halen
  have hpr1 : (partitionL arr low high).1 = listSwap a p high := rfl
  have hpr2 : (partitionL arr low high).2 = p := rfl
  rw [hpr1, hpr2]
  have hgp : (listSwap a p high).getD p 0 = a.getD high 0 := by
    rw [getD_listSwap]
    by_cases hph : p = high
    · rw [if_pos ⟨hph.symm, by omega⟩, hph]
    · rw [if_neg (by omega), if_pos ⟨rfl, by omega⟩]
  refine ⟨hswap_len, ?_, hlowp, hplen, ?_, ?_, ?_⟩
  · exact (listSwap_perm a p high (by omega) (by omega)).trans hperm
  · intro t ht
    rw [getD_listSwap]
    rw [if_neg (by omega), if_neg (by omega)]
    exact huntouched t (by omega)
  · intro t hlt htp
    rw [hgp, getD_listSwap]
    rw [if_neg (by omega), if_neg (by omega)]
    exact hpivot.1 t hlt htp
  · intro t hpt hth
    rw [hgp, getD_listSwap]
    by_cases hth' : t = high
    · subst hth'
      rw [if_pos ⟨rfl, by omega⟩]
      have := hpivot.2 p (le_refl p) (by omega)
      omega
    · rw [if_neg (by omega), if_neg (by omega)]
      have := hpivot.2 t (by omega) (by omega)
      omega

/-- The segment of `l` at positions `[low, high]`. -/
def seg (l : List Nat) (low high : Nat) : List Nat :=
  (l.drop low).take (high + 1 - low)

theorem take_eq_of_getD (l l' : List Nat) (hlen : l.length = l'.length) (m : Nat)
    (h : ∀ t, t < m → l.getD t 0 = l'.getD t 0) : l.take m = l'.take m := by
  apply List.ext_getElem
  · simp [hlen]
  · intro t h1 h2
    simp only [List.length_take, lt_min_iff] at h1
    rw [List.getElem_take, List.getElem_take]
    rw [← List.getD_eq_getElem l 0 h1.2, ← List.getD_eq_getElem l' 0 (by omega)]
    exact h t h1.1

theorem drop_eq_of_getD (l l' : List Nat) (hlen : l.length = l'.length) (m : Nat)
    (h : ∀ t, m ≤ t → l.getD t 0 = l'.getD t 0) : l.drop m = l'.drop m := by
  apply List.ext_getElem
  · simp [hlen]
  · intro t h1 h2
    simp only [List.length_drop] at h1
    rw [List.getElem_drop, List.getElem_drop]
    rw [← List.getD_eq_getElem l 0 (by omega), ← List.getD_eq_getElem l' 0 (by omega)]
    exact h (m + t) (by omega)

theorem count_seg (l : List Nat) (low high x : Nat) (h : low ≤ high + 1) :
    List.count x l = List.count x (l.take low) + List.count x (seg l low high) +
      List.count x (l.drop (high + 1)) := by
  have h1 : l.drop low = seg l low high ++ l.drop (high + 1) := by
    unfold seg
    conv_lhs => rw [← List.take_append_drop (high + 1 - low) (l.drop low)]
    rw [List.drop_drop]
    congr 2
    omega
  conv_lhs => rw [← List.take_append_drop low l]
  rw [List.count_append, h1, List.count_append]
  omega

theorem seg_perm_of (l l' : List Nat) (low high : Nat) (hperm : l.Perm l')
    (hout : ∀ t, t < low ∨ high < t → l.getD t 0 = l'.getD t 0) (h : low ≤ high + 1) :
    (seg l low high).Perm (seg l' low high) := by
  have hlen := hperm.length_eq
  rw [List.perm_iff_count]
  intro x
  have c1 := count_seg l low high x h
  have c2 := count_seg l' low high x h
  have ht : l.take low = l'.take low :=
    take_eq_of_getD l l' hlen low (fun t h' => hout t (Or.inl h'))
  have hd : l.drop (high + 1) = l'.drop (high + 1) :=
    drop_eq_of_getD l l' hlen (high + 1) (fun t h' => hout t (Or.inr (by omega)))
  rw [ht, hd] at c1
  have hc := hperm.count_eq x
  omega

theorem getD_mem_seg (l : List Nat) (low high t : Nat)
    (h1 : low ≤ t) (h2 : t ≤ high) (h3 : t < l.length) :
    l.getD t 0 ∈ seg l low high := by
  unfold seg
  rw [List.mem_iff_getElem]
  have hlt : t - low < ((l.drop low).take (high + 1 - low)).length := by
    simp only [List.length_take, List.length_drop, lt_min_iff]
    omega
  refine ⟨t - low, hlt, ?_⟩
  rw [List.getElem_take, List.getElem_drop]
  have harith : low + (t - low) = t := by omega
  rw [List.getD_eq_getElem l 0 h3]
  congr 1

theorem mem_seg_getD (l : List Nat) (low high x : Nat) (hx : x ∈ seg l low high) :
    ∃ t, low ≤ t ∧ t ≤ high ∧ t < l.length ∧ l.getD t 0 = x := by
  unfold seg at hx
  rw [List.mem_iff_getElem] at hx
  obtain ⟨m, hm, hget⟩ := hx
  simp only [List.length_take, List.length_drop, lt_min_iff] at hm
  refine ⟨low + m, by omega, by omega, by omega, ?_⟩
  rw [List.getElem_take, List.getElem_drop] at hget
  rw [List.getD_eq_getElem l 0 (by omega)]
  exact hget

theorem quicksortRecursive_spec :
    ∀ N arr low high, high - low ≤ N → high < arr.length →
      (quicksortRecursive arr low high).length = arr.length ∧
      ((quicksortRecursive arr low high).Perm arr) ∧
      (∀ t, t < low ∨ high < t →
        (quicksortRecursive arr low high).getD t 0 = arr.getD t 0) ∧
      (∀ a b, low ≤ a → a ≤ b → b ≤ high →
        (quicksortRecursive arr low high).getD a 0 ≤
          (quicksortRecursive arr low high).getD b 0) := by
  intro N
  induction N with
  | zero =>
    intro arr low high hN hh
    have hnl : ¬ low < high := by omega
    rw [quicksortRecursive, dif_neg hnl]
    refine ⟨rfl, List.Perm.refl _, fun t _ => rfl, fun a b h1 h2 h3 => ?_⟩
    have hab : a = b := by omega
    rw [hab]
  | succ N ih =>
    intro arr low high hN hh
    by_cases hlh : low < high
    case neg =>
      rw [quicksortRecursive, dif_neg hlh]
      refine ⟨rfl, List.Perm.refl _, fun t _ => rfl, fun a b h1 h2 h3 => ?_⟩
      have hab : a = b := by omega
      rw [hab]
    case pos =>
      obtain ⟨hPlen, hPperm, hPlow, hPhigh, hPout, hPlt, hPge⟩ :=
        partitionL_spec arr low high (le_of_lt hlh) hh
      have heq : quicksortRecursive arr low high =
          (if (partitionL arr low high).2 < high then
            quicksortRecursive
              (if (partitionL arr low high).2 > 0 then
                quicksortRecursive (partitionL arr low high).1 low
                  ((partitionL arr low high).2 - 1)
              else (partitionL arr low high).1)
              ((partitionL arr low high).2 + 1) high
          else
            (if (partitionL arr low high).2 > 0 then
              quicksortRecursive (partitionL arr low high).1 low
                ((partitionL arr low high).2 - 1)
            else (partitionL arr low high).1)) := by
        rw [quicksortRecursive, dif_pos hlh]
        simp only [dite_eq_ite]
      have ha1 : ∀ a1, a1 = (if (partitionL arr low high).2 > 0 then
            quicksortRecursive (partitionL arr low high).1 low
              ((partitionL arr low high).2 - 1)
          else (partitionL arr low high).1) →
          a1.length = arr.length ∧ a1.Perm (partitionL arr low high).1 ∧
          (∀ t, t < low ∨ (partitionL arr low high).2 ≤ t →
            a1.getD t 0 = (partitionL arr low high).1.getD t 0) ∧
          (∀ a b, low ≤ a → a ≤ b → b < (partitionL arr low high).2 →
            a1.getD a 0 ≤ a1.getD b 0) := by
        intro a1 ha1def
        by_cases hp0 : (partitionL arr low high).2 > 0
        · rw [if_pos hp0] at ha1def
          obtain ⟨hl, hp, ho, hs⟩ := ih (partitionL arr low high).1 low
            ((partitionL arr low high).2 - 1) (by omega) (by omega)
          rw [ha1def]
          refine ⟨by omega, hp, fun t ht => ho t (by omega),
            fun a b h1 h2 h3 => hs a b h1 h2 (by omega)⟩
        · rw [if_neg hp0] at ha1def
          rw [ha1def]
          exact ⟨hPlen, List.Perm.refl _, fun t _ => rfl,
            fun a b h1 h2 h3 => absurd h3 (by omega)⟩
      set P := partitionL arr low high with hPdef
      set pv := P.1.getD P.2 0 with hpvdef
      set A1 := (if P.2 > 0 then quicksortRecursive P.1 low (P.2 - 1) else P.1)
        with hA1def
      obtain ⟨hA1len, hA1perm, hA1out, hA1sort⟩ := ha1 A1 hA1def
      have hA1lt : ∀ t, low ≤ t → t < P.2 → A1.getD t 0 < pv := by
        intro t h1 h2
        have hsegperm : (seg A1 low (P.2 - 1)).Perm (seg P.1 low (P.2 - 1)) :=
          seg_perm_of A1 P.1 low (P.2 - 1) hA1perm
            (fun s hs => hA1out s (by omega)) (by omega)
        have hmem : A1.getD t 0 ∈ seg A1 low (P.2 - 1) :=
          getD_mem_seg A1 low (P.2 - 1) t h1 (by omega) (by omega)
        obtain ⟨s, hs1, hs2, hs3, hs4⟩ :=
          mem_seg_getD P.1 low (P.2 - 1) _ (hsegperm.mem_iff.mp hmem)
        rw [← hs4]
        exact hPlt s hs1 (by omega)
      have hA1p : A1.getD P.2 0 = pv := hA1out P.2 (Or.inr (le_refl P.2))
      have hA1gt : ∀ t, P.2 < t → t ≤ high → pv ≤ A1.getD t 0 := by
        intro t h1 h2
        rw [hA1out t (Or.inr (by omega))]
        exact hPge t h1 h2
      have ha2 : ∀ a2, a2 = (if P.2 < high then
            quicksortRecursive A1 (P.2 + 1) high else A1) →
          a2.length = arr.length ∧ a2.Perm A1 ∧
          (∀ t, t ≤ P.2 ∨ high < t → a2.getD t 0 = A1.getD t 0) ∧
          (∀ a b, P.2 < a → a ≤ b → b ≤ high → a2.getD a 0 ≤ a2.getD b 0) := by
        intro a2 ha2def
        by_cases hph : P.2 < high
        · rw [if_pos hph] at ha2def
          obtain ⟨hl, hp, ho, hs⟩ := ih A1 (P.2 + 1) high (by omega) (by omega)
          rw [ha2def]
          refine ⟨by omega, hp, fun t ht => ho t (by omega),
            fun a b h1 h2 h3 => hs a b (by omega) h2 h3⟩
        · rw [if_neg hph] at ha2def
          rw [ha2def]
          exact ⟨hA1len, List.Perm.refl _, fun t _ => rfl,
            fun a b h1 h2 h3 => absurd (h2.trans h3) (by omega)⟩
      set A2 := (if P.2 < high then quicksortRecursive A1 (P.2 + 1) high else A1)
        with hA2def
      obtain ⟨hA2len, hA2perm, hA2out, hA2sort⟩ := ha2 A2 hA2def
      have hA2pv : A2.getD P.2 0 = pv := by
        rw [hA2out P.2 (Or.inl (le_refl P.2)), hA1p]
      have hA2lt : ∀ t, low ≤ t → t < P.2 → A2.getD t 0 < pv := by
        intro t h1 h2
        rw [hA2out t (Or.inl (by omega))]
        exact hA1lt t h1 h2
      have hA2gt : ∀ t, P.2 < t → t ≤ high → pv ≤ A2.getD t 0 := by
        intro t h1 h2
        by_cases hph : P.2 < high
        · have hsegperm : (seg A2 (P.2 + 1) high).Perm (seg A1 (P.2 + 1) high) :=
            seg_perm_of A2 A1 (P.2 + 1) high hA2perm
              (fun s hs => hA2out s (by omega)) (by omega)
          have hmem : A2.getD t 0 ∈ seg A2 (P.2 + 1) high :=
            getD_mem_seg A2 (P.2 + 1) high t (by omega) h2 (by omega)
          obtain ⟨s, hs1, hs2, hs3, hs4⟩ :=
            mem_seg_getD A1 (P.2 + 1) high _ (hsegperm.mem_iff.mp hmem)
          rw [← hs4]
          exact hA1gt s (by omega) hs2
        · exact absurd (lt_of_lt_of_le h1 h2) (by omega)
      rw [heq]
      refine ⟨hA2len, hA2perm.trans (hA1perm.trans hPperm), ?_, ?_⟩
      · intro t ht
        rw [hA2out t (by omega), hA1out t (by omega)]
        exact hPout t ht
      · intro a b h1 h2 h3
        by_cases hbp : b < P.2
        · rw [hA2out a (Or.inl (by omega)), hA2out b (Or.inl (by omega))]
          exact hA1sort a b h1 h2 hbp
        · by_cases hap : a < P.2
          · by_cases hbp' : b = P.2
            · rw [hbp', hA2pv]
              exact le_of_lt (hA2lt a h1 hap)
            · exact le_of_lt (lt_of_lt_of_le (hA2lt a h1 hap)
                (hA2gt b (by omega) h3))
          · by_cases hap' : a = P.2
            · by_cases hbp' : b = P.2
              · rw [hap', hbp']
              · rw [hap', hA2pv]
                exact hA2gt b (by omega) h3
            · exact hA2sort a b (by omega) h2 h3

theorem quicksort_spec (arr : List Nat) :
    (quicksort arr).length = arr.length ∧ ((quicksort arr).Perm arr) ∧
      SortedLe (quicksort arr) := by
  unfold quicksort
  by_cases h : arr.length > 1
  · rw [if_pos h]
    obtain ⟨hl, hp, _, hs⟩ := quicksortRecursive_spec (arr.length - 1) arr 0
      (arr.length - 1) (by omega) (by omega)
    refine ⟨hl, hp, ?_⟩
    intro a b hab hb
    exact hs a b (Nat.zero_le a) hab (by omega)
  · rw [if_neg h]
    refine ⟨rfl, List.Perm.refl _, ?_⟩
    intro a b hab hb
    have hab' : a = b := by omega
    rw [hab']

/-! ### The shuffle-index reconciliation -/

theorem findSlot_spec (x : Nat) (rhs : List Nat) (mask : List Bool) :
    ∀ k j j', findSlot x rhs mask j k = some j' →
      j ≤ j' ∧ j' < j + k ∧ mask.getD j' false = false ∧ rhs.getD j' 0 = x ∧
      (∀ t, j ≤ t → t < j' → ¬ (mask.getD t false = false ∧ rhs.getD t 0 = x)) := by
  intro k
  induction k with
  | zero => intro j j' h; simp [findSlot] at h
  | succ k ih =>
    intro j j' h
    rw [findSlot] at h
    by_cases hc : mask.getD j false = false ∧ rhs.getD j 0 = x
    · rw [if_pos hc] at h
      obtain rfl : j = j' := Option.some_injective _ h
      exact ⟨le_refl j, by omega, hc.1, hc.2, fun t h1 h2 => absurd h1 (by omega)⟩
    · rw [if_neg hc] at h
      obtain ⟨h1, h2, h3, h4, h5⟩ := ih (j + 1) j' h
      refine ⟨by omega, by omega, h3, h4, ?_⟩
      intro t ht1 ht2
      by_cases htj : t = j
      · rw [htj]; exact hc
      · exact h5 t (by omega) ht2

theorem findSlot_exists (x : Nat) (rhs : List Nat) (mask : List Bool) :
    ∀ k j, (∃ t, j ≤ t ∧ t < j + k ∧ mask.getD t false = false ∧ rhs.getD t 0 = x) →
      ∃ j', findSlot x rhs mask j k = some j' := by
  intro k
  induction k with
  | zero => intro j ⟨t, h1, h2, _⟩; omega
  | succ k ih =>
    intro j ⟨t, h1, h2, h3, h4⟩
    rw [findSlot]
    by_cases hc : mask.getD j false = false ∧ rhs.getD j 0 = x
    · exact ⟨j, by rw [if_pos hc]⟩
    · rw [if_neg hc]
      apply ih (j + 1)
      by_cases htj : t = j
      · exact absurd ⟨htj ▸ h3, htj ▸ h4⟩ hc
      · exact ⟨t, by omega, by omega, h3, h4⟩

/-- The number of unclaimed positions of `rhs` holding the value `x`. -/
def unclaimedCount (rhs : List Nat) (mask : List Bool) (x n : Nat) : Nat :=
  ((List.range n).filter
    (fun j => decide (mask.getD j false = false ∧ rhs.getD j 0 = x))).length

theorem filter_range_count (rhs : List Nat) (x : Nat) :
    ((List.range rhs.length).filter (fun j => decide (rhs.getD j 0 = x))).length =
      List.count x rhs := by
  induction rhs with
  | nil => simp
  | cons y ys ih =>
    rw [List.length_cons, List.range_succ_eq_map, List.filter_cons, List.filter_map]
    have hcomp : ((fun j => decide ((y :: ys).getD j 0 = x)) ∘ Nat.succ) =
        (fun j => decide (ys.getD j 0 = x)) := by
      funext j
      simp [Function.comp, List.getD_cons_succ]
    rw [hcomp]
    by_cases hy : y = x
    · have hcond : (fun j => decide ((y :: ys).getD j 0 = x)) 0 = true := by
        simp [List.getD_cons_zero, hy]
      rw [if_pos hcond, List.length_cons, List.length_map, ih, List.count_cons]
      simp [hy]
    · have hcond : ¬ ((fun j => decide ((y :: ys).getD j 0 = x)) 0 = true) := by
        simp [List.getD_cons_zero, hy]
      rw [if_neg hcond, List.length_map, ih, List.count_cons]
      simp [hy]

theorem length_filter_erase :
    ∀ (l : List Nat), l.Nodup → ∀ (j0 : Nat), j0 ∈ l →
      ∀ (P Q : Nat → Bool), P j0 = true → Q j0 = false →
      (∀ t, t ∈ l → t ≠ j0 → Q t = P t) →
      (l.filter Q).length + 1 = (l.filter P).length := by
  intro l
  induction l with
  | nil => intro _ j0 h; simp at h
  | cons a as ih =>
    intro hnd j0 hj0 P Q hP hQ hagree
    rcases List.mem_cons.mp hj0 with rfl | hj0'
    · have heq : as.filter Q = as.filter P := by
        apply List.filter_congr
        intro t ht
        have htne : t ≠ j0 := by
          intro hcontra
          exact (List.nodup_cons.mp hnd).1 (hcontra ▸ ht)
        exact hagree t (List.mem_cons_of_mem _ ht) htne
      simp [List.filter_cons, hP, hQ, heq]
    · have hagree_a : Q a = P a := by
        apply hagree a (List.mem_cons_self a as)
        intro hcontra
        exact (List.nodup_cons.mp hnd).1 (hcontra ▸ hj0')
      have ihr := ih (List.nodup_cons.mp hnd).2 j0 hj0' P Q hP hQ
        (fun t ht htne => hagree t (List.mem_cons_of_mem _ ht) htne)
      by_cases hPa : P a = true
      · have hQa : Q a = true := by rw [hagree_a, hPa]
        simp [List.filter_cons, hPa, hQa]
        all_goals omega
      · have hPa' : P a = false := by simpa using hPa
        have hQa : Q a = false := by rw [hagree_a, hPa']
        simp [List.filter_cons, hPa', hQa]
        all_goals omega

theorem unclaimedCount_set_eq (rhs : List Nat) (mask : List Bool) (x n j : Nat)
    (hj : j < n) (hjm : j < mask.length)
    (hmask : mask.getD j false = false) (hrhs : rhs.getD j 0 = x) :
    unclaimedCount rhs (mask.set j true) x n + 1 = unclaimedCount rhs mask x n := by
  unfold unclaimedCount
  apply length_filter_erase (List.range n) (List.nodup_range n) j (List.mem_range.mpr hj)
  · simp only [decide_eq_true_eq]
    exact ⟨hmask, hrhs⟩
  · simp only [decide_eq_false_iff_not]
    intro hcontra
    obtain ⟨h1, _⟩ := hcontra
    rw [getD_set, if_pos ⟨rfl, hjm⟩] at h1
    simp at h1
  · intro t _ htj
    have hm : (mask.set j true).getD t false = mask.getD t false := by
      rw [getD_set, if_neg (fun hc => htj hc.1.symm)]
    simp only [hm]

theorem unclaimedCount_set_ne (rhs : List Nat) (mask : List Bool) (x n j : Nat)
    (hrhs : rhs.getD j 0 ≠ x) :
    unclaimedCount rhs (mask.set j true) x n = unclaimedCount rhs mask x n := by
  unfold unclaimedCount
  congr 1
  apply List.filter_congr
  intro t _
  by_cases htj : t = j
  · subst htj
    rw [decide_eq_decide]
    constructor <;> intro hc <;> exact absurd hc.2 hrhs
  · have hm : (mask.set j true).getD t false = mask.getD t false := by
      rw [getD_set, if_neg (fun hc => htj hc.1.symm)]
    simp only [hm]

theorem unclaimedCount_replicate (rhs : List Nat) (x n : Nat) (hn : rhs.length = n) :
    unclaimedCount rhs (List.replicate n false) x n = List.count x rhs := by
  unfold unclaimedCount
  have hcong : (List.range n).filter
      (fun j => decide ((List.replicate n false).getD j false = false ∧ rhs.getD j 0 = x)) =
      (List.range n).filter (fun j => decide (rhs.getD j 0 = x)) := by
    apply List.filter_congr
    intro t _
    simp [getD_replicate_self]
  rw [hcong, ← hn, filter_range_count]

theorem unclaimedCount_pos_exists (rhs : List Nat) (mask : List Bool) (x n : Nat)
    (h : 0 < unclaimedCount rhs mask x n) :
    ∃ t, t < n ∧ mask.getD t false = false ∧ rhs.getD t 0 = x := by
  unfold unclaimedCount at h
  rw [List.length_pos] at h
  obtain ⟨y, hy⟩ := List.exists_mem_of_ne_nil _ h
  rw [List.mem_filter, List.mem_range] at hy
  refine ⟨y, hy.1, ?_⟩
  have := hy.2
  simp only [decide_eq_true_eq] at this
  exact this

theorem shuffleLoop_spec (lhs rhs : List Nat) (n : Nat)
    (hlhs : lhs.length = n) :
    ∀ k i ind mask, i + k = n → ind.length = n → mask.length = n →
    (∀ x, unclaimedCount rhs mask x n = List.count x (lhs.drop i)) →
    (∀ a, a < i → ind.getD a 0 < n ∧ rhs.getD (ind.getD a 0) 0 = lhs.getD a 0 ∧
      mask.getD (ind.getD a 0) false = true ∧
      (∀ t, t < ind.getD a 0 → rhs.getD t 0 = lhs.getD a 0 →
        mask.getD t false = true)) →
    (∀ a b, a < b → b < i → ind.getD a 0 ≠ ind.getD b 0) →
    (∀ a b, a < b → b < i → lhs.getD a 0 = lhs.getD b 0 →
      ind.getD a 0 < ind.getD b 0) →
    ∃ ind' mask', shuffleLoop lhs rhs n i k ind mask = some (ind', mask') ∧
      ind'.length = n ∧
      (∀ a, a < n → ind'.getD a 0 < n ∧ rhs.getD (ind'.getD a 0) 0 = lhs.getD a 0) ∧
      (∀ a b, a < b → b < n → ind'.getD a 0 ≠ ind'.getD b 0) ∧
      (∀ a b, a < b → b < n → lhs.getD a 0 = lhs.getD b 0 →
        ind'.getD a 0 < ind'.getD b 0) := by
  intro k
  induction k with
  | zero =>
    intro i ind mask hik hind hmask hcnt hclaim hinj hmono
    have hin : i = n := by omega
    subst hin
    exact ⟨ind, mask, rfl, hind,
      fun a ha => ⟨(hclaim a ha).1, (hclaim a ha).2.1⟩, hinj, hmono⟩
  | succ k ih =>
    intro i ind mask hik hind hmask hcnt hclaim hinj hmono
    have hi : i < n := by omega
    have hilhs : i < lhs.length := by omega
    have hheadx : lhs[i] = lhs.getD i 0 := (List.getD_eq_getElem lhs 0 hilhs).symm
    have hcntx : 0 < unclaimedCount rhs mask (lhs.getD i 0) n := by
      rw [hcnt (lhs.getD i 0), List.drop_eq_getElem_cons hilhs, List.count_cons]
      simp [hheadx]
    obtain ⟨t0, ht0n, ht0m, ht0r⟩ :=
      unclaimedCount_pos_exists rhs mask (lhs.getD i 0) n hcntx
    obtain ⟨j, hj⟩ := findSlot_exists (lhs.getD i 0) rhs mask n 0
      ⟨t0, by omega, by omega, ht0m, ht0r⟩
    obtain ⟨-, hjn, hjm, hjr, hjmin⟩ := findSlot_spec (lhs.getD i 0) rhs mask n 0 j hj
    have hjn' : j < n := by omega
    rw [shuffleLoop]
    rw [hj]
    have hmt : ∀ t, mask.getD t false = true → (mask.set j true).getD t false = true := by
      intro t ht
      rw [getD_set]
      by_cases hc : j = t ∧ j < mask.length
      · rw [if_pos hc]
      · rw [if_neg hc]; exact ht
    have hindkeep : ∀ a, a < i → (ind.set i j).getD a 0 = ind.getD a 0 := by
      intro a ha
      rw [getD_set, if_neg (fun hc => (by omega : ¬ i = a) hc.1)]
    have hindi : (ind.set i j).getD i 0 = j := by
      rw [getD_set, if_pos ⟨rfl, by omega⟩]
    have hmaskj : (mask.set j true).getD j false = true := by
      rw [getD_set, if_pos ⟨rfl, by omega⟩]
    have hindlt : ∀ a, a < i → ind.getD a 0 ≠ j := by
      intro a ha hc
      have := (hclaim a ha).2.2.1
      rw [hc, hjm] at this
      simp at this
    have hindltj : ∀ a, a < i → lhs.getD a 0 = lhs.getD i 0 → ind.getD a 0 < j := by
      intro a ha hval
      have hne := hindlt a ha
      by_cases hlt : j < ind.getD a 0
      · have := (hclaim a ha).2.2.2 j hlt (by rw [hjr, hval])
        rw [hjm] at this
        simp at this
      · omega
    apply ih (i + 1) (ind.set i j) (mask.set j true) (by omega)
      (by rw [List.length_set]; exact hind) (by rw [List.length_set]; exact hmask)
    · intro x'
      by_cases hx' : x' = lhs.getD i 0
      · subst hx'
        have h1 := unclaimedCount_set_eq rhs mask (lhs.getD i 0) n j hjn'
          (by omega) hjm hjr
        have h2 := hcnt (lhs.getD i 0)
        rw [List.drop_eq_getElem_cons hilhs, List.count_cons] at h2
        simp only [hheadx, beq_self_eq_true, if_true] at h2
        omega
      · have h1 : rhs.getD j 0 ≠ x' := by
          rw [hjr]
          exact fun hc => hx' hc.symm
        rw [unclaimedCount_set_ne rhs mask x' n j h1]
        have h2 := hcnt x'
        rw [List.drop_eq_getElem_cons hilhs, List.count_cons] at h2
        have hne2 : ¬ (lhs[i] == x') = true := by
          rw [beq_iff_eq, hheadx]
          exact fun hc => hx' hc.symm
        rw [if_neg hne2] at h2
        omega
    · intro a ha
      by_cases hai : a < i
      · obtain ⟨c1, c2, c3, c4⟩ := hclaim a hai
        rw [hindkeep a hai]
        exact ⟨c1, c2, hmt _ c3, fun t ht1 ht2 => hmt t (c4 t ht1 ht2)⟩
      · have hai' : a = i := by omega
        subst hai'
        rw [hindi]
        refine ⟨by omega, hjr, hmaskj, ?_⟩
        intro t ht1 ht2
        have := hjmin t (Nat.zero_le t) ht1
        apply hmt
        by_cases hmaskt : mask.getD t false = true
        · exact hmaskt
        · exact absurd ⟨by simpa using hmaskt, ht2⟩ this
    · intro a b hab hb
      by_cases hbi : b < i
      · rw [hindkeep a (by omega), hindkeep b hbi]
        exact hinj a b hab hbi
      · have hbi' : b = i := by omega
        subst hbi'
        rw [hindkeep a (by omega), hindi]
        exact hindlt a (by omega)
    · intro a b hab hb hval
      by_cases hbi : b < i
      · rw [hindkeep a (by omega), hindkeep b hbi]
        exact hmono a b hab hbi hval
      · have hbi' : b = i := by omega
        subst hbi'
        rw [hindkeep a (by omega), hindi]
        exact hindltj a (by omega) hval

theorem get_shuffle_indices_spec (lhs rhs : List Nat)
    (hlen : rhs.length = lhs.length)
    (hcount : ∀ x, List.count x rhs = List.count x lhs) :
    ∃ si, get_shuffle_indices lhs rhs = some si ∧ si.length = lhs.length ∧
      (∀ a, a < lhs.length → si.getD a 0 < lhs.length ∧
        rhs.getD (si.getD a 0) 0 = lhs.getD a 0) ∧
      (∀ a b, a < b → b < lhs.length → si.getD a 0 ≠ si.getD b 0) ∧
      (∀ a b, a < b → b < lhs.length → lhs.getD a 0 = lhs.getD b 0 →
        si.getD a 0 < si.getD b 0) := by
  obtain ⟨ind', mask', heq, hlen', hprop, hinj, hmono⟩ :=
    shuffleLoop_spec lhs rhs lhs.length rfl lhs.length 0
      (List.replicate lhs.length 0) (List.replicate lhs.length false)
      (by omega) (List.length_replicate _ _) (List.length_replicate _ _)
      (by
        intro x
        rw [unclaimedCount_replicate rhs x lhs.length hlen, List.drop_zero]
        exact hcount x)
      (fun a ha => absurd ha (by omega))
      (fun a b hab hb => absurd hb (by omega))
      (fun a b hab hb => absurd hb (by omega))
  refine ⟨ind', ?_, hlen', hprop, hinj, hmono⟩
  show (shuffleLoop lhs rhs lhs.length 0 lhs.length (List.replicate lhs.length 0)
    (List.replicate lhs.length false)).map Prod.fst = some ind'
  rw [heq]
  rfl

theorem sort_advanced_spec (input : List Nat) (hne : input ≠ []) :
    ∃ r, sort_advanced input = some r ∧
      r.sorted = quicksort input ∧
      (r.sorted).Perm input ∧ SortedLe r.sorted ∧
      r.sorted.length = input.length ∧
      r.sort_indices.length = input.length ∧
      (∀ a, a < input.length → r.sort_indices.getD a 0 < input.length ∧
        r.sorted.getD (r.sort_indices.getD a 0) 0 = input.getD a 0) ∧
      (∀ a b, a < b → b < input.length →
        r.sort_indices.getD a 0 ≠ r.sort_indices.getD b 0) ∧
      (∀ a b, a < b → b < input.length → input.getD a 0 = input.getD b 0 →
        r.sort_indices.getD a 0 < r.sort_indices.getD b 0) := by
  obtain ⟨hqlen, hqperm, hqsorted⟩ := quicksort_spec input
  obtain ⟨si, hsi, hsilen, hsiprop, hsiinj, hsimono⟩ :=
    get_shuffle_indices_spec input (quicksort input) hqlen
      (fun x => hqperm.count_eq x)
  have hlen0 : input.length ≠ 0 := fun hc => hne (List.length_eq_zero.mp hc)
  refine ⟨⟨quicksort input, si⟩, ?_, rfl, hqperm, hqsorted, hqlen, hsilen,
    ?_, hsiinj, hsimono⟩
  · have hnz : ¬ (quicksort input).length = 0 := by omega
    have hall : (List.range ((quicksort input).length - 1)).all
        (fun i => !decide ((quicksort input).getD (i + 1) 0 <
          (quicksort input).getD i 0)) = true := by
      rw [List.all_eq_true]
      intro x hx
      rw [List.mem_range] at hx
      have hle := hqsorted x (x + 1) (by omega) (by omega)
      simp only [Bool.not_eq_true', decide_eq_false_iff_not]
      omega
    show (match get_shuffle_indices input (quicksort input) with
      | none => none
      | some si =>
        if (quicksort input).length = 0 then none
        else
          if ((List.range ((quicksort input).length - 1)).all
              fun i => !decide ((quicksort input).getD (i + 1) 0 <
                (quicksort input).getD i 0)) = true then
            some (⟨quicksort input, si⟩ : SortResult)
          else none) = some ⟨quicksort input, si⟩
    rw [hsi]
    show (if (quicksort input).length = 0 then none
      else
        if ((List.range ((quicksort input).length - 1)).all
            fun i => !decide ((quicksort input).getD (i + 1) 0 <
              (quicksort input).getD i 0)) = true then
          some (⟨quicksort input, si⟩ : SortResult)
        else none) = some ⟨quicksort input, si⟩
    rw [if_neg hnz, if_pos hall]
  · intro a ha
    obtain ⟨h1, h2⟩ := hsiprop a ha
    exact ⟨h1, h2⟩

/-! ### Analysis of `SparseArray.create` -/

theorem populateValues_succ {T : Type} [Inhabited T] (si : List Nat) (values : List T)
    (n : Nat) (init : List T) :
    populateValues si values (n + 1) init =
      (populateValues si values n init).set (si.getD n 0 + 2) (values.getD n default) := by
  unfold populateValues
  rw [List.range_succ, List.foldl_concat]

theorem populateValues_length {T : Type} [Inhabited T] (si : List Nat) (values : List T) :
    ∀ n init, (populateValues si values n init).length = init.length := by
  intro n
  induction n with
  | zero => intro init; simp [populateValues]
  | succ n ih =>
    intro init
    rw [populateValues_succ, List.length_set]
    exact ih init

theorem populateValues_getD_untouched {T : Type} [Inhabited T]
    (si : List Nat) (values : List T) :
    ∀ n init t, (∀ i, i < n → si.getD i 0 + 2 ≠ t) →
      (populateValues si values n init).getD t default = init.getD t default := by
  intro n
  induction n with
  | zero => intro init t _; simp [populateValues]
  | succ n ih =>
    intro init t hmiss
    rw [populateValues_succ]
    rw [getD_set, if_neg (fun hc => hmiss n (by omega) hc.1)]
    exact ih init t (fun i hi => hmiss i (by omega))

theorem populateValues_getD_hit {T : Type} [Inhabited T]
    (si : List Nat) (values : List T) :
    ∀ n init t j, j < n → si.getD j 0 + 2 = t → t < init.length →
      (∀ i, i < n → i ≠ j → si.getD i 0 + 2 ≠ t) →
      (populateValues si values n init).getD t default = values.getD j default := by
  intro n
  induction n with
  | zero => intro init t j hj; omega
  | succ n ih =>
    intro init t j hj hsj ht hmiss
    rw [populateValues_succ]
    by_cases hjn : j = n
    · subst hjn
      have hlen2 : si.getD j 0 + 2 < (populateValues si values j init).length := by
        rw [populateValues_length]
        omega
      rw [getD_set, if_pos ⟨hsj, hlen2⟩]
    · rw [getD_set, if_neg (fun hc => hmiss n (by omega) (Ne.symm hjn) hc.1)]
      exact ih init t j (by omega) hsj ht (fun i hi hij => hmiss i (by omega) hij)

theorem sort_advanced_nil : sort_advanced [] = none := rfl

/-- Unfolding of `SparseArray.create` with the `let` bindings expanded. -/
theorem create_unfold {T : Type} [Inhabited T]
    (keys : List Nat) (values : List T) (size : Nat) :
    SparseArray.create keys values size =
      (if keys.length ≠ values.length then none
      else if size = 0 then none
      else match sort_advanced keys with
        | none => none
        | some s =>
          if ¬ s.sorted.getD 0 0 < FIELD_MODULUS then none
          else if ¬ size - 1 < FIELD_MODULUS then none
          else if ¬ s.sorted.getD (keys.length - 1) 0 ≤ size - 1 then none
          else some ⟨0 :: (s.sorted ++ [size - 1]),
            (((populateValues s.sort_indices values keys.length
                (List.replicate (keys.length + 3) default)).set 0 default).set 1
                (if keys.getD 0 0 = 0 then values.getD 0 default else default)).set
                (keys.length + 2)
                (if keys.getD (keys.length - 1) 0 = size - 1 then
                  values.getD (keys.length - 1) default else default),
            size - 1⟩) := rfl

theorem create_eq_none_of_sort_none {T : Type} [Inhabited T]
    (keys : List Nat) (values : List T) (size : Nat)
    (hs : sort_advanced keys = none) (h1 : keys.length = values.length)
    (h2 : size ≠ 0) : SparseArray.create keys values size = none := by
  rw [create_unfold, if_neg (by omega), if_neg h2, hs]

theorem create_unfold_some {T : Type} [Inhabited T]
    (keys : List Nat) (values : List T) (size : Nat) (s : SortResult)
    (hs : sort_advanced keys = some s) (h1 : keys.length = values.length)
    (h2 : size ≠ 0) :
    SparseArray.create keys values size =
      (if ¬ s.sorted.getD 0 0 < FIELD_MODULUS then none
      else if ¬ size - 1 < FIELD_MODULUS then none
      else if ¬ s.sorted.getD (keys.length - 1) 0 ≤ size - 1 then none
      else some ⟨0 :: (s.sorted ++ [size - 1]),
        (((populateValues s.sort_indices values keys.length
            (List.replicate (keys.length + 3) default)).set 0 default).set 1
            (if keys.getD 0 0 = 0 then values.getD 0 default else default)).set
            (keys.length + 2)
            (if keys.getD (keys.length - 1) 0 = size - 1 then
              values.getD (keys.length - 1) default else default),
        size - 1⟩) := by
  rw [create_unfold, if_neg (by omega), if_neg h2, hs]

theorem create_some_elim {T : Type} [Inhabited T] (keys : List Nat) (values : List T)
    (size : Nat) (arr : SparseArray T)
    (h : SparseArray.create keys values size = some arr) :
    ∃ s, sort_advanced keys = some s ∧
      keys.length = values.length ∧ 1 ≤ size ∧
      s.sorted.getD 0 0 < FIELD_MODULUS ∧ size - 1 < FIELD_MODULUS ∧
      s.sorted.getD (keys.length - 1) 0 ≤ size - 1 ∧
      arr.maximum = size - 1 ∧
      arr.keys = 0 :: (s.sorted ++ [size - 1]) ∧
      arr.values = (((populateValues s.sort_indices values keys.length
          (List.replicate (keys.length + 3) default)).set 0 default).set 1
          (if keys.getD 0 0 = 0 then values.getD 0 default else default)).set
          (keys.length + 2)
          (if keys.getD (keys.length - 1) 0 = size - 1 then
            values.getD (keys.length - 1) default else default) := by
  by_cases h1 : keys.length ≠ values.length
  · rw [create_unfold, if_pos h1] at h; exact absurd h (by simp)
  by_cases h2 : size = 0
  · rw [create_unfold, if_neg h1, if_pos h2] at h; exact absurd h (by simp)
  cases hs : sort_advanced keys with
  | none =>
    rw [create_eq_none_of_sort_none keys values size hs (by omega) h2] at h
    exact absurd h (by simp)
  | some s =>
    rw [create_unfold_some keys values size s hs (by omega) h2] at h
    by_cases h3 : ¬ s.sorted.getD 0 0 < FIELD_MODULUS
    · rw [if_pos h3] at h; exact absurd h (by simp)
    rw [if_neg h3] at h
    by_cases h4 : ¬ size - 1 < FIELD_MODULUS
    · rw [if_pos h4] at h; exact absurd h (by simp)
    rw [if_neg h4] at h
    by_cases h5 : ¬ s.sorted.getD (keys.length - 1) 0 ≤ size - 1
    · rw [if_pos h5] at h; exact absurd h (by simp)
    rw [if_neg h5] at h
    have harr := Option.some.inj h
    refine ⟨s, rfl, by omega, by omega, not_not.mp h3, not_not.mp h4, not_not.mp h5,
      ?_, ?_, ?_⟩ <;> rw [← harr]

theorem sort_advanced_some_of_ne_nil (input : List Nat) (hne : input ≠ []) :
    ∃ r, sort_advanced input = some r := by
  obtain ⟨r, hr, -⟩ := sort_advanced_spec input hne
  exact ⟨r, hr⟩

theorem sorted_mem_of_mem (input : List Nat) (r : SortResult)
    (hr : sort_advanced input = some r) (k : Nat) (hk : k ∈ input) :
    ∃ idx, idx < input.length ∧ r.sorted.getD idx 0 = k := by
  obtain ⟨r', hr', -, hperm, -, hslen, -⟩ := sort_advanced_spec input
    (List.ne_nil_of_mem hk)
  rw [hr] at hr'
  obtain rfl := Option.some.inj hr'
  have hmem : k ∈ r.sorted := hperm.mem_iff.mpr hk
  rw [List.mem_iff_getElem] at hmem
  obtain ⟨idx, hidx, hget⟩ := hmem
  exact ⟨idx, by omega, by rw [List.getD_eq_getElem r.sorted 0 hidx]; exact hget⟩

theorem sorted_max_ge (input : List Nat) (r : SortResult)
    (hr : sort_advanced input = some r) (k : Nat) (hk : k ∈ input) :
    k ≤ r.sorted.getD (input.length - 1) 0 := by
  obtain ⟨r', hr', -, -, hsorted, hslen, -⟩ := sort_advanced_spec input
    (List.ne_nil_of_mem hk)
  rw [hr] at hr'
  obtain rfl := Option.some.inj hr'
  obtain ⟨idx, hidx, hget⟩ := sorted_mem_of_mem input r hr k hk
  rw [← hget]
  have hlen0 : 0 < input.length := List.length_pos.mpr (List.ne_nil_of_mem hk)
  exact hsorted idx (input.length - 1) (by omega) (by omega)

theorem sorted_min_mem (input : List Nat) (r : SortResult)
    (hr : sort_advanced input = some r) (hne : input ≠ []) :
    r.sorted.getD 0 0 ∈ input ∧ r.sorted.getD (input.length - 1) 0 ∈ input := by
  obtain ⟨r', hr', -, hperm, -, hslen, -⟩ := sort_advanced_spec input hne
  rw [hr] at hr'
  obtain rfl := Option.some.inj hr'
  have hlen0 : 0 < input.length := List.length_pos.mpr hne
  constructor
  · have h0 : 0 < r.sorted.length := by omega
    rw [List.getD_eq_getElem r.sorted 0 h0]
    exact hperm.mem_iff.mp (List.getElem_mem h0)
  · have h0 : input.length - 1 < r.sorted.length := by omega
    rw [List.getD_eq_getElem r.sorted 0 h0]
    exact hperm.mem_iff.mp (List.getElem_mem h0)

theorem create_isSome {T : Type} [Inhabited T] (keys : List Nat) (values : List T)
    (size : Nat) (hne : keys ≠ []) (hlen : keys.length = values.length)
    (hsz : 1 ≤ size) (hkP : ∀ k, k ∈ keys → k < FIELD_MODULUS)
    (hmP : size - 1 < FIELD_MODULUS) (hkm : ∀ k, k ∈ keys → k ≤ size - 1) :
    (SparseArray.create keys values size).isSome := by
  obtain ⟨r, hr⟩ := sort_advanced_some_of_ne_nil keys hne
  rw [create_unfold_some keys values size r hr hlen (by omega)]
  obtain ⟨hmin, hmax⟩ := sorted_min_mem keys r hr hne
  rw [if_neg (not_not_intro (hkP _ hmin))]
  rw [if_neg (not_not_intro hmP)]
  rw [if_neg (not_not_intro (hkm _ hmax))]
  rfl

theorem create_none_of_key_ge {T : Type} [Inhabited T] (keys : List Nat)
    (values : List T) (size : Nat) (h : ∃ k, k ∈ keys ∧ FIELD_MODULUS ≤ k) :
    SparseArray.create keys values size = none := by
  obtain ⟨k, hk, hkP⟩ := h
  have hne : keys ≠ [] := List.ne_nil_of_mem hk
  by_cases h1 : keys.length ≠ values.length
  · rw [create_unfold, if_pos h1]
  by_cases h2 : size = 0
  · rw [create_unfold, if_neg h1, if_pos h2]
  obtain ⟨r, hr⟩ := sort_advanced_some_of_ne_nil keys hne
  rw [create_unfold_some keys values size r hr (by omega) h2]
  by_cases h3 : ¬ r.sorted.getD 0 0 < FIELD_MODULUS
  · rw [if_pos h3]
  rw [if_neg h3]
  by_cases h4 : ¬ size - 1 < FIELD_MODULUS
  · rw [if_pos h4]
  rw [if_neg h4]
  have hge := sorted_max_ge keys r hr k hk
  rw [if_pos (by omega)]

theorem create_none_of_max_ge {T : Type} [Inhabited T] (keys : List Nat)
    (values : List T) (size : Nat) (hsz : 1 ≤ size)
    (h : FIELD_MODULUS ≤ size - 1) :
    SparseArray.create keys values size = none := by
  by_cases h1 : keys.length ≠ values.length
  · rw [create_unfold, if_pos h1]
  by_cases hne : keys = []
  · subst hne
    exact create_eq_none_of_sort_none [] values size sort_advanced_nil
      (by omega) (by omega)
  obtain ⟨r, hr⟩ := sort_advanced_some_of_ne_nil keys hne
  rw [create_unfold_some keys values size r hr (by omega) (by omega)]
  by_cases h3 : ¬ r.sorted.getD 0 0 < FIELD_MODULUS
  · rw [if_pos h3]
  rw [if_neg h3]
  rw [if_pos (by omega)]

theorem create_none_of_max_lt_key {T : Type} [Inhabited T] (keys : List Nat)
    (values : List T) (size : Nat) (hsz : 1 ≤ size)
    (h : ∃ k, k ∈ keys ∧ size - 1 < k) :
    SparseArray.create keys values size = none := by
  obtain ⟨k, hk, hklt⟩ := h
  have hne : keys ≠ [] := List.ne_nil_of_mem hk
  by_cases h1 : keys.length ≠ values.length
  · rw [create_unfold, if_pos h1]
  obtain ⟨r, hr⟩ := sort_advanced_some_of_ne_nil keys hne
  rw [create_unfold_some keys values size r hr (by omega) (by omega)]
  by_cases h3 : ¬ r.sorted.getD 0 0 < FIELD_MODULUS
  · rw [if_pos h3]
  rw [if_neg h3]
  by_cases h4 : ¬ size - 1 < FIELD_MODULUS
  · rw [if_pos h4]
  rw [if_neg h4]
  have hge := sorted_max_ge keys r hr k hk
  rw [if_pos (by omega)]

theorem create_none_of_empty {T : Type} [Inhabited T] (values : List T) (size : Nat) :
    SparseArray.create ([] : List Nat) values size = none := by
  by_cases h1 : ([] : List Nat).length ≠ values.length
  · rw [create_unfold, if_pos h1]
  by_cases h2 : size = 0
  · rw [create_unfold, if_neg h1, if_pos h2]
  exact create_eq_none_of_sort_none [] values size sort_advanced_nil (by omega) h2

/-! ### Analysis of `SparseArray.get` -/

theorem bsearchLoop_stop (keys : List Nat) (index left right : Nat)
    (hc : ¬ left + 1 < right) : bsearchLoop keys index left right = left := by
  rw [bsearchLoop, dif_neg hc]

theorem bsearchLoop_step (keys : List Nat) (index left right : Nat)
    (hc : left + 1 < right) :
    bsearchLoop keys index left right =
      if keys.getD ((left + right) / 2) 0 ≤ index then
        bsearchLoop keys index ((left + right) / 2) right
      else bsearchLoop keys index left ((left + right) / 2) := by
  rw [bsearchLoop, dif_pos hc]

theorem bsearchLoop_inv (keys : List Nat) (index : Nat)
    (hsorted : ∀ a b, a ≤ b → b < keys.length → keys.getD a 0 ≤ keys.getD b 0) :
    ∀ gap left right, right - left ≤ gap → left < right → right < keys.length →
      keys.getD left 0 ≤ index →
      left ≤ bsearchLoop keys index left right ∧
      bsearchLoop keys index left right < right ∧
      keys.getD (bsearchLoop keys index left right) 0 ≤ index ∧
      (∀ j, bsearchLoop keys index left right < j → j < right →
        index < keys.getD j 0) := by
  intro gap
  induction gap with
  | zero => intro left right hgap hlr _ _; omega
  | succ gap ih =>
    intro left right hgap hlr hrlen hle
    by_cases hc : left + 1 < right
    · rw [bsearchLoop_step keys index left right hc]
      have hmid1 : left + 1 ≤ (left + right) / 2 := by
        rw [Nat.le_div_iff_mul_le (by norm_num)]
        omega
      have hmid2 : (left + right) / 2 < right := by
        rw [Nat.div_lt_iff_lt_mul (by norm_num)]
        omega
      by_cases hcmp : keys.getD ((left + right) / 2) 0 ≤ index
      · rw [if_pos hcmp]
        have hrec := ih ((left + right) / 2) right (by omega) (by omega) hrlen hcmp
        exact ⟨by omega, hrec.2.1, hrec.2.2.1, hrec.2.2.2⟩
      · rw [if_neg hcmp]
        have hrec := ih left ((left + right) / 2) (by omega) (by omega) (by omega) hle
        refine ⟨hrec.1, by omega, hrec.2.2.1, ?_⟩
        intro j hj1 hj2
        by_cases hjm : j < (left + right) / 2
        · exact hrec.2.2.2 j hj1 hjm
        · have : keys.getD ((left + right) / 2) 0 ≤ keys.getD j 0 :=
            hsorted _ _ (by omega) (by omega)
          omega
    · rw [bsearchLoop_stop keys index left right hc]
      exact ⟨le_refl left, hlr, hle, fun j h1 h2 => absurd h1 (by omega)⟩

theorem bsearchLoopChecked_stop (keys : List Nat) (index left right : Nat)
    (hc : ¬ left + 1 < right) : bsearchLoopChecked keys index left right = some left := by
  rw [bsearchLoopChecked, dif_neg hc]

theorem bsearchLoopChecked_step (keys : List Nat) (index left right km : Nat)
    (hc : left + 1 < right) (hkm : keys.get? ((left + right) / 2) = some km) :
    bsearchLoopChecked keys index left right =
      if km ≤ index then bsearchLoopChecked keys index ((left + right) / 2) right
      else bsearchLoopChecked keys index left ((left + right) / 2) := by
  rw [bsearchLoopChecked, dif_pos hc]
  show (match keys.get? ((left + right) / 2) with
    | none => none
    | some km =>
      if km ≤ index then bsearchLoopChecked keys index ((left + right) / 2) right
      else bsearchLoopChecked keys index left ((left + right) / 2)) = _
  rw [hkm]

theorem bsearchLoopChecked_eq (keys : List Nat) (index : Nat) :
    ∀ gap left right, right - left ≤ gap → right ≤ keys.length →
      bsearchLoopChecked keys index left right =
        some (bsearchLoop keys index left right) := by
  intro gap
  induction gap with
  | zero =>
    intro left right hgap hrlen
    have hc : ¬ left + 1 < right := by omega
    rw [bsearchLoopChecked_stop keys index left right hc,
      bsearchLoop_stop keys index left right hc]
  | succ gap ih =>
    intro left right hgap hrlen
    by_cases hc : left + 1 < right
    · have hmid1 : left + 1 ≤ (left + right) / 2 := by
        rw [Nat.le_div_iff_mul_le (by norm_num)]
        omega
      have hmid2 : (left + right) / 2 < right := by
        rw [Nat.div_lt_iff_lt_mul (by norm_num)]
        omega
      have hmlen : (left + right) / 2 < keys.length := by omega
      have hkm : keys.get? ((left + right) / 2) = some keys[(left + right) / 2] := by
        rw [List.get?_eq_getElem?, List.getElem?_eq_getElem hmlen]
      rw [bsearchLoopChecked_step keys index left right keys[(left + right) / 2] hc hkm,
        bsearchLoop_step keys index left right hc]
      have hgd : keys.getD ((left + right) / 2) 0 = keys[(left + right) / 2] :=
        List.getD_eq_getElem keys 0 hmlen
      by_cases hcmp : keys[(left + right) / 2] ≤ index
      · rw [if_pos hcmp, if_pos (hgd ▸ hcmp), ih ((left + right) / 2) right (by omega) hrlen]
      · rw [if_neg hcmp, if_neg (fun hcc => hcmp (hgd ▸ hcc)),
          ih left ((left + right) / 2) (by omega) (by omega)]
    · rw [bsearchLoopChecked_stop keys index left right hc,
        bsearchLoop_stop keys index left right hc]

/-- Unfolding of `SparseArray.get` with the `let` binding expanded. -/
theorem get_unfold {T : Type} [Inhabited T] (arr : SparseArray T) (index : Nat) :
    arr.get index =
      (if arr.maximum < index then arr.values.getD 0 default
      else if arr.keys.getD (bsearchLoop arr.keys index 0 (arr.keys.length - 1)) 0
          = index then
        arr.values.getD (bsearchLoop arr.keys index 0 (arr.keys.length - 1) + 1) default
      else arr.values.getD 0 default) := rfl

theorem cons_append_getD (sorted : List Nat) (m t : Nat) :
    (0 :: (sorted ++ [m])).getD t 0 =
      (if t = 0 then 0
      else if t ≤ sorted.length then sorted.getD (t - 1) 0
      else if t = sorted.length + 1 then m else 0) := by
  cases t with
  | zero => simp
  | succ t =>
    rw [List.getD_cons_succ]
    by_cases ht : t < sorted.length
    · rw [if_neg (by omega), if_pos (by omega)]
      rw [List.getD_eq_getElem?_getD, List.getD_eq_getElem?_getD,
        List.getElem?_append_left ht]
      have harith : t + 1 - 1 = t := by omega
      rw [harith]
    · by_cases ht2 : t = sorted.length
      · rw [if_neg (by omega), if_neg (by omega), if_pos (by omega)]
        rw [List.getD_eq_getElem?_getD, List.getElem?_append_right (by omega)]
        rw [ht2, Nat.sub_self]
        rfl
      · rw [if_neg (by omega), if_neg (by omega), if_neg (by omega)]
        rw [List.getD_eq_default _ _ (by simp; omega)]

theorem cons_append_sortedLe (sorted : List Nat) (m : Nat) (hs : SortedLe sorted)
    (hm : sorted.getD (sorted.length - 1) 0 ≤ m) :
    SortedLe (0 :: (sorted ++ [m])) := by
  intro a b hab hb
  have hblen : b < sorted.length + 2 := by
    simp only [List.length_cons, List.length_append, List.length_nil] at hb
    omega
  rw [cons_append_getD, cons_append_getD]
  by_cases ha0 : a = 0
  · rw [if_pos ha0]
    exact Nat.zero_le _
  · rw [if_neg ha0]
    by_cases hb0 : b = 0
    · exact absurd (by omega : a = 0) ha0
    · by_cases hbl : b ≤ sorted.length
      · rw [if_neg hb0, if_pos hbl, if_pos (by omega)]
        exact hs (a - 1) (b - 1) (by omega) (by omega)
      · have hb1 : b = sorted.length + 1 := by omega
        rw [if_neg hb0, if_neg hbl, if_pos hb1]
        by_cases hal : a ≤ sorted.length
        · rw [if_pos hal]
          have hstep : sorted.getD (a - 1) 0 ≤ sorted.getD (sorted.length - 1) 0 :=
            hs (a - 1) (sorted.length - 1) (by omega) (by omega)
          omega
        · rw [if_neg hal, if_pos (by omega)]

theorem created_values_slot0 {T : Type} [Inhabited T] (si : List Nat)
    (values : List T) (n : Nat) (x1 x2 : T) :
    ((((populateValues si values n (List.replicate (n + 3) default)).set 0
        default).set 1 x1).set (n + 2) x2).getD 0 default = default := by
  rw [getD_set, if_neg (fun hc => absurd hc.1 (by omega))]
  rw [getD_set, if_neg (fun hc => absurd hc.1 (by omega))]
  rw [getD_set, if_pos ⟨rfl, by rw [populateValues_length, List.length_replicate]; omega⟩]

theorem created_values_slot1 {T : Type} [Inhabited T] (si : List Nat)
    (values : List T) (n : Nat) (x1 x2 : T) (hn : 1 ≤ n) :
    ((((populateValues si values n (List.replicate (n + 3) default)).set 0
        default).set 1 x1).set (n + 2) x2).getD 1 default = x1 := by
  rw [getD_set, if_neg (fun hc => absurd hc.1 (by omega))]
  rw [getD_set, if_pos ⟨rfl, by
    rw [List.length_set, populateValues_length, List.length_replicate]; omega⟩]

theorem created_values_slotlast {T : Type} [Inhabited T] (si : List Nat)
    (values : List T) (n : Nat) (x1 x2 : T) :
    ((((populateValues si values n (List.replicate (n + 3) default)).set 0
        default).set 1 x1).set (n + 2) x2).getD (n + 2) default = x2 := by
  rw [getD_set, if_pos ⟨rfl, by
    rw [List.length_set, List.length_set, populateValues_length,
      List.length_replicate]; omega⟩]

theorem created_values_slotmid {T : Type} [Inhabited T] (si : List Nat)
    (values : List T) (n : Nat) (x1 x2 : T) (j : Nat) (hj : j < n)
    (hsij : si.getD j 0 < n)
    (hinj : ∀ i, i < n → i ≠ j → si.getD i 0 ≠ si.getD j 0) :
    ((((populateValues si values n (List.replicate (n + 3) default)).set 0
        default).set 1 x1).set (n + 2) x2).getD (si.getD j 0 + 2) default =
      values.getD j default := by
  rw [getD_set, if_neg (fun hc => absurd hc.1 (by omega))]
  rw [getD_set, if_neg (fun hc => absurd hc.1 (by omega))]
  rw [getD_set, if_neg (fun hc => absurd hc.1 (by omega))]
  apply populateValues_getD_hit si values n _ _ j hj rfl
    (by rw [List.length_replicate]; omega)
  intro i hi hij hc
  exact hinj i hi hij (by omega)

theorem sort_advanced_some_spec (input : List Nat) (r : SortResult)
    (hr : sort_advanced input = some r) :
    (r.sorted).Perm input ∧ SortedLe r.sorted ∧
    r.sorted.length = input.length ∧
    r.sort_indices.length = input.length ∧
    (∀ a, a < input.length → r.sort_indices.getD a 0 < input.length ∧
      r.sorted.getD (r.sort_indices.getD a 0) 0 = input.getD a 0) ∧
    (∀ a b, a < b → b < input.length →
      r.sort_indices.getD a 0 ≠ r.sort_indices.getD b 0) ∧
    (∀ a b, a < b → b < input.length → input.getD a 0 = input.getD b 0 →
      r.sort_indices.getD a 0 < r.sort_indices.getD b 0) := by
  have hne : input ≠ [] := by
    intro hc
    rw [hc, sort_advanced_nil] at hr
    exact Option.noConfusion hr
  obtain ⟨r', hr', -, hperm, hsorted, hslen, hsilen, hsiprop, hsiinj, hsimono⟩ :=
    sort_advanced_spec input hne
  rw [hr] at hr'
  obtain rfl := Option.some.inj hr'
  exact ⟨hperm, hsorted, hslen, hsilen, hsiprop, hsiinj, hsimono⟩

theorem si_last_greatest (keys : List Nat) (s : SortResult)
    (hs : sort_advanced keys = some s) (i : Nat) (hi : i < keys.length)
    (hlast : ∀ i', i < i' → i' < keys.length → keys.getD i' 0 ≠ keys.getD i 0) :
    ∀ j, j < keys.length → s.sorted.getD j 0 = keys.getD i 0 →
      j ≤ s.sort_indices.getD i 0 := by
  obtain ⟨hperm, hsorted, hslen, hsilen, hsiprop, hsiinj, hsimono⟩ :=
    sort_advanced_some_spec keys s hs
  intro j hj hjval
  have hSlen := filter_range_count keys (keys.getD i 0)
  have hTlen := filter_range_count s.sorted (keys.getD i 0)
  rw [hslen] at hTlen
  have hcount : List.count (keys.getD i 0) s.sorted =
      List.count (keys.getD i 0) keys := hperm.count_eq _
  have hmapnodup : (((List.range keys.length).filter
      (fun a => decide (keys.getD a 0 = keys.getD i 0))).map
      (fun a => s.sort_indices.getD a 0)).Nodup := by
    apply List.Nodup.map_on _ (List.Nodup.filter _ (List.nodup_range _))
    intro x hx y hy hfxy
    rw [List.mem_filter, List.mem_range] at hx hy
    by_contra hne
    rcases Nat.lt_or_ge x y with hlt | hge
    · exact hsiinj x y hlt hy.1 hfxy
    · exact hsiinj y x (by omega) hx.1 hfxy.symm
  have hmapsub : ∀ z ∈ ((List.range keys.length).filter
      (fun a => decide (keys.getD a 0 = keys.getD i 0))).map
      (fun a => s.sort_indices.getD a 0),
      z ∈ (List.range keys.length).filter
        (fun j' => decide (s.sorted.getD j' 0 = keys.getD i 0)) := by
    intro z hz
    rw [List.mem_map] at hz
    obtain ⟨a, ha, rfl⟩ := hz
    rw [List.mem_filter, List.mem_range] at ha
    rw [List.mem_filter, List.mem_range]
    obtain ⟨hpa1, hpa2⟩ := hsiprop a ha.1
    refine ⟨hpa1, ?_⟩
    simp only [decide_eq_true_eq]
    rw [hpa2]
    exact of_decide_eq_true ha.2
  have hsubperm := List.subperm_of_subset hmapnodup hmapsub
  have hpermST := hsubperm.perm_of_length_le (by
    rw [List.length_map]
    omega)
  have hjT : j ∈ (List.range keys.length).filter
      (fun j' => decide (s.sorted.getD j' 0 = keys.getD i 0)) := by
    rw [List.mem_filter, List.mem_range]
    exact ⟨hj, decide_eq_true hjval⟩
  have hjM := hpermST.mem_iff.mpr hjT
  rw [List.mem_map] at hjM
  obtain ⟨a, haS, hfa⟩ := hjM
  rw [List.mem_filter, List.mem_range] at haS
  have hak : keys.getD a 0 = keys.getD i 0 := of_decide_eq_true haS.2
  have hai : a ≤ i := by
    by_contra hcon
    exact hlast a (by omega) haS.1 hak
  rcases Nat.eq_or_lt_of_le hai with rfl | halt
  · omega
  · have := hsimono a i halt hi hak
    omega

theorem create_keys_length {T : Type} [Inhabited T] (keys : List Nat) (s : SortResult)
    (size : Nat) (arr : SparseArray T)
    (hkeys : arr.keys = 0 :: (s.sorted ++ [size - 1]))
    (hslen : s.sorted.length = keys.length) :
    arr.keys.length = keys.length + 2 := by
  rw [hkeys]
  simp only [List.length_cons, List.length_append, List.length_nil, hslen]
  all_goals omega

theorem create_get_last {T : Type} [Inhabited T] (keys : List Nat) (values : List T)
    (size : Nat) (arr : SparseArray T)
    (h : SparseArray.create keys values size = some arr)
    (i : Nat) (hi : i < keys.length)
    (hlast : ∀ i', i < i' → i' < keys.length → keys.getD i' 0 ≠ keys.getD i 0) :
    arr.get (keys.getD i 0) = values.getD i default := by
  obtain ⟨s, hs, hlen, hsz, hb1, hb2, hb3, hmax, hkeys, hvals⟩ :=
    create_some_elim keys values size arr h
  obtain ⟨hperm, hsortedLe, hslen, hsilen, hsiprop, hsiinj, hsimono⟩ :=
    sort_advanced_some_spec keys s hs
  have hgreatest := si_last_greatest keys s hs i hi hlast
  obtain ⟨hsii1, hsii2⟩ := hsiprop i hi
  have hkmem : keys.getD i 0 ∈ keys := by
    rw [List.getD_eq_getElem keys 0 hi]
    exact List.getElem_mem hi
  have hkmax : keys.getD i 0 ≤ size - 1 :=
    le_trans (sorted_max_ge keys s hs _ hkmem) hb3
  have hklen := create_keys_length keys s size arr hkeys hslen
  have harrsorted : SortedLe arr.keys := by
    rw [hkeys]
    apply cons_append_sortedLe s.sorted (size - 1) hsortedLe
    rw [hslen]
    exact hb3
  have hgetD : ∀ t, arr.keys.getD t 0 =
      (if t = 0 then 0 else if t ≤ keys.length then s.sorted.getD (t - 1) 0
       else if t = keys.length + 1 then size - 1 else 0) := by
    intro t
    rw [hkeys, cons_append_getD, hslen]
  rw [get_unfold]
  rw [if_neg (by rw [hmax]; omega)]
  have hbs := bsearchLoop_inv arr.keys (keys.getD i 0)
    (fun a b hab hb => harrsorted a b hab hb) arr.keys.length 0
    (arr.keys.length - 1) (by omega) (by omega) (by omega)
    (by rw [hgetD 0]; simp)
  obtain ⟨-, hL2, hL3, hL4⟩ := hbs
  set L := bsearchLoop arr.keys (keys.getD i 0) 0 (arr.keys.length - 1) with hL
  have hBle : s.sort_indices.getD i 0 + 1 ≤ L := by
    by_contra hcon
    have hstep := hL4 (s.sort_indices.getD i 0 + 1) (by omega) (by omega)
    rw [hgetD] at hstep
    rw [if_neg (by omega), if_pos (by omega), Nat.add_sub_cancel, hsii2] at hstep
    omega
  have hBge : L ≤ s.sort_indices.getD i 0 + 1 := by
    by_contra hcon
    have hL3' := hL3
    rw [hgetD] at hL3'
    rw [if_neg (by omega), if_pos (by omega)] at hL3'
    have hge : s.sorted.getD (s.sort_indices.getD i 0) 0 ≤ s.sorted.getD (L - 1) 0 :=
      hsortedLe _ _ (by omega) (by omega)
    rw [hsii2] at hge
    have heq : s.sorted.getD (L - 1) 0 = keys.getD i 0 := by omega
    have := hgreatest (L - 1) (by omega) heq
    omega
  have hLB : L = s.sort_indices.getD i 0 + 1 := by omega
  have hmatch : arr.keys.getD L 0 = keys.getD i 0 := by
    rw [hLB, hgetD]
    rw [if_neg (by omega), if_pos (by omega), Nat.add_sub_cancel]
    exact hsii2
  rw [if_pos hmatch]
  rw [hLB, hvals]
  have harith : s.sort_indices.getD i 0 + 1 + 1 = s.sort_indices.getD i 0 + 2 := by
    omega
  rw [harith]
  apply created_values_slotmid s.sort_indices values keys.length _ _ i hi hsii1
  intro a ha hai hc
  rcases Nat.lt_or_ge a i with hlt | hge
  · exact hsiinj a i hlt hi hc
  · exact hsiinj i a (by omega) ha hc.symm

theorem create_get_default {T : Type} [Inhabited T] (keys : List Nat) (values : List T)
    (size : Nat) (arr : SparseArray T)
    (h : SparseArray.create keys values size = some arr)
    (k : Nat) (hk : k ∉ keys) : arr.get k = default := by
  obtain ⟨s, hs, hlen, hsz, hb1, hb2, hb3, hmax, hkeys, hvals⟩ :=
    create_some_elim keys values size arr h
  obtain ⟨hperm, hsortedLe, hslen, hsilen, hsiprop, hsiinj, hsimono⟩ :=
    sort_advanced_some_spec keys s hs
  have hne : keys ≠ [] := by
    intro hc
    rw [hc, sort_advanced_nil] at hs
    exact Option.noConfusion hs
  have hn1 : 0 < keys.length := List.length_pos.mpr hne
  have hklen := create_keys_length keys s size arr hkeys hslen
  rw [get_unfold]
  by_cases hcase : arr.maximum < k
  · rw [if_pos hcase, hvals]
    exact created_values_slot0 s.sort_indices values keys.length _ _
  · rw [if_neg hcase]
    have harrsorted : SortedLe arr.keys := by
      rw [hkeys]
      apply cons_append_sortedLe s.sorted (size - 1) hsortedLe
      rw [hslen]
      exact hb3
    have hgetD : ∀ t, arr.keys.getD t 0 =
        (if t = 0 then 0 else if t ≤ keys.length then s.sorted.getD (t - 1) 0
         else if t = keys.length + 1 then size - 1 else 0) := by
      intro t
      rw [hkeys, cons_append_getD, hslen]
    have hbs := bsearchLoop_inv arr.keys k
      (fun a b hab hb => harrsorted a b hab hb) arr.keys.length 0
      (arr.keys.length - 1) (by omega) (by omega) (by omega)
      (by rw [hgetD 0]; simp)
    obtain ⟨-, hL2, hL3, hL4⟩ := hbs
    set L := bsearchLoop arr.keys k 0 (arr.keys.length - 1) with hL
    by_cases hmatch : arr.keys.getD L 0 = k
    · by_cases hL0 : L = 0
      · have hk0 : k = 0 := by
          rw [hL0, hgetD 0] at hmatch
          simpa using hmatch.symm
        rw [if_pos hmatch, hL0, hvals]
        have h01 : (0 : Nat) + 1 = 1 := rfl
        rw [h01, created_values_slot1 s.sort_indices values keys.length _ _ hn1]
        rw [if_neg ?_]
        intro hc
        apply hk
        rw [hk0, ← hc, List.getD_eq_getElem keys 0 hn1]
        exact List.getElem_mem hn1
      · exfalso
        have hmatch' := hmatch
        rw [hgetD] at hmatch'
        rw [if_neg hL0, if_pos (by omega)] at hmatch'
        have hmem : k ∈ s.sorted := by
          rw [← hmatch', List.getD_eq_getElem s.sorted 0 (by omega)]
          exact List.getElem_mem (by omega)
        exact hk (hperm.mem_iff.mp hmem)
    · rw [if_neg hmatch, hvals]
      exact created_values_slot0 s.sort_indices values keys.length _ _

/-- Unfolding of `SparseArray.getChecked`. -/
theorem getChecked_unfold {T : Type} [Inhabited T] (arr : SparseArray T) (index : Nat) :
    arr.getChecked index =
      (if arr.maximum < index then arr.values.get? 0
      else match bsearchLoopChecked arr.keys index 0 (arr.keys.length - 1) with
        | none => none
        | some left =>
          match arr.keys.get? left with
          | none => none
          | some kl => if kl = index then arr.values.get? (left + 1)
            else arr.values.get? 0) := rfl

theorem create_values_length {T : Type} [Inhabited T] (keys : List Nat) (s : SortResult)
    (values : List T) (size : Nat) (arr : SparseArray T)
    (hvals : arr.values = (((populateValues s.sort_indices values keys.length
        (List.replicate (keys.length + 3) default)).set 0 default).set 1
        (if keys.getD 0 0 = 0 then values.getD 0 default else default)).set
        (keys.length + 2)
        (if keys.getD (keys.length - 1) 0 = size - 1 then
          values.getD (keys.length - 1) default else default)) :
    arr.values.length = keys.length + 3 := by
  rw [hvals, List.length_set, List.length_set, List.length_set,
    populateValues_length, List.length_replicate]

theorem create_getChecked {T : Type} [Inhabited T] (keys : List Nat) (values : List T)
    (size : Nat) (arr : SparseArray T)
    (h : SparseArray.create keys values size = some arr) (index : Nat) :
    arr.getChecked index = some (arr.get index) := by
  obtain ⟨s, hs, hlen, hsz, hb1, hb2, hb3, hmax, hkeys, hvals⟩ :=
    create_some_elim keys values size arr h
  obtain ⟨hperm, hsortedLe, hslen, hsilen, hsiprop, hsiinj, hsimono⟩ :=
    sort_advanced_some_spec keys s hs
  have hklen := create_keys_length keys s size arr hkeys hslen
  have hvlen := create_values_length keys s values size arr hvals
  rw [getChecked_unfold, get_unfold]
  have hv0 : arr.values.get? 0 = some (arr.values.getD 0 default) := by
    rw [List.get?_eq_getElem?, List.getElem?_eq_getElem (by omega),
      List.getD_eq_getElem arr.values default (by omega)]
  by_cases hcase : arr.maximum < index
  · rw [if_pos hcase, if_pos hcase, hv0]
  · rw [if_neg hcase, if_neg hcase]
    have harrsorted : SortedLe arr.keys := by
      rw [hkeys]
      apply cons_append_sortedLe s.sorted (size - 1) hsortedLe
      rw [hslen]
      exact hb3
    have hgetD0 : arr.keys.getD 0 0 = 0 := by
      rw [hkeys, cons_append_getD]
      simp
    have hbs := bsearchLoop_inv arr.keys index
      (fun a b hab hb => harrsorted a b hab hb) arr.keys.length 0
      (arr.keys.length - 1) (by omega) (by omega) (by omega)
      (by rw [hgetD0]; exact Nat.zero_le index)
    obtain ⟨-, hL2, hL3, hL4⟩ := hbs
    set L := bsearchLoop arr.keys index 0 (arr.keys.length - 1) with hL
    have hbc := bsearchLoopChecked_eq arr.keys index arr.keys.length 0
      (arr.keys.length - 1) (by omega) (by omega)
    rw [hbc]
    have hLlen : L < arr.keys.length := by omega
    have hkL : arr.keys.get? L = some arr.keys[L] := by
      rw [List.get?_eq_getElem?, List.getElem?_eq_getElem hLlen]
    show (match arr.keys.get? L with
      | none => none
      | some kl => if kl = index then arr.values.get? (L + 1)
        else arr.values.get? 0) = _
    rw [hkL]
    show (if arr.keys[L] = index then arr.values.get? (L + 1)
      else arr.values.get? 0) = _
    have hgdL : arr.keys.getD L 0 = arr.keys[L] := List.getD_eq_getElem arr.keys 0 hLlen
    by_cases hmatch : arr.keys[L] = index
    · rw [if_pos hmatch, if_pos (by rw [hgdL]; exact hmatch)]
      rw [List.get?_eq_getElem?, List.getElem?_eq_getElem (by omega),
        List.getD_eq_getElem arr.values default (by omega)]
    · rw [if_neg hmatch, if_neg (by rw [hgdL]; exact hmatch), hv0]

theorem create_boundary_slots {T : Type} [Inhabited T] (keys : List Nat)
    (values : List T) (size : Nat) (arr : SparseArray T)
    (h : SparseArray.create keys values size = some arr) :
    arr.values.getD 1 default =
      (if keys.getD 0 0 = 0 then values.getD 0 default else default) ∧
    arr.values.getD (keys.length + 2) default =
      (if keys.getD (keys.length - 1) 0 = size - 1 then
        values.getD (keys.length - 1) default else default) := by
  obtain ⟨s, hs, hlen, hsz, hb1, hb2, hb3, hmax, hkeys, hvals⟩ :=
    create_some_elim keys values size arr h
  have hne : keys ≠ [] := by
    intro hc
    rw [hc, sort_advanced_nil] at hs
    exact Option.noConfusion hs
  have hn1 : 0 < keys.length := List.length_pos.mpr hne
  rw [hvals]
  exact ⟨created_values_slot1 s.sort_indices values keys.length _ _ hn1,
    created_values_slotlast s.sort_indices values keys.length _ _⟩

/-! ### Analysis of `SparseArray.create_packed` -/

theorem create_example :
    SparseArray.create [1, 99, 7, 5] ([123, 101112, 789, 456] : List Nat) 100 =
    some ⟨[0, 1, 5, 7, 99, 99], [0, 0, 123, 456, 789, 101112, 0], 99⟩ := by
  simp [SparseArray.create, sort_advanced, get_shuffle_indices, shuffleLoop, findSlot,
    quicksort, quicksortRecursive, partitionL, partitionLoop, listSwap,
    populateValues, List.range_succ]
  norm_num [FIELD_MODULUS]

theorem create_dup_example :
    SparseArray.create [1, 1] ([10, 20] : List Nat) 10 =
      some ⟨[0, 1, 1, 9], [0, 0, 10, 20, 0], 9⟩ := by
  simp [SparseArray.create, sort_advanced, get_shuffle_indices, shuffleLoop, findSlot,
    quicksort, quicksortRecursive, partitionL, partitionLoop, listSwap,
    populateValues, List.range_succ]
  norm_num [FIELD_MODULUS]

/-! ### The claims -/

/-- C1 (amended): for every table constructed by `create(keys, values, size)`
with pairwise-distinct keys, and every original pair `(keys[i], values[i])`,
`get(keys[i])` returns `values[i]`.  (With duplicate keys the round trip fails
for all but the last occurrence: see the counterexample.) -/
theorem C1_roundtrip_nodup {T : Type} [Inhabited T] (keys : List Nat)
    (values : List T) (size : Nat) (arr : SparseArray T)
    (h : SparseArray.create keys values size = some arr) (hnd : keys.Nodup)
    (i : Nat) (hi : i < keys.length) :
    arr.get (keys.getD i 0) = values.getD i default := by
  apply create_get_last keys values size arr h i hi
  intro i' hii hi' hc
  rw [List.getD_eq_getElem keys 0 hi', List.getD_eq_getElem keys 0 hi] at hc
  have := hnd.getElem_inj_iff.mp hc
  omega

theorem C1_roundtrip_nodup_witness :
    (⟨[0, 1, 5, 7, 99, 99], [0, 0, 123, 456, 789, 101112, 0], 99⟩ :
      SparseArray Nat).get ([1, 99, 7, 5].getD 2 0) =
      ([123, 101112, 789, 456] : List Nat).getD 2 default :=
  C1_roundtrip_nodup [1, 99, 7, 5] [123, 101112, 789, 456] 100 _ create_example
    (by decide) 2 (by decide)

/-- C1 counterexample to the original claim: with duplicate keys, the pair
`(1, 10)` supplied at construction does not round-trip — `get 1` returns `20`,
the value of the later occurrence, not `10`. -/
theorem C1_counterexample :
    SparseArray.create [1, 1] ([10, 20] : List Nat) 10 =
      some ⟨[0, 1, 1, 9], [0, 0, 10, 20, 0], 9⟩ ∧
    (⟨[0, 1, 1, 9], [0, 0, 10, 20, 0], 9⟩ : SparseArray Nat).get
        ([1, 1].getD 0 0) ≠ ([10, 20] : List Nat).getD 0 default := by
  refine ⟨create_dup_example, ?_⟩
  simp [SparseArray.get, bsearchLoop]

/-- C2: for every constructed table and every index `k` not among the original
keys — a hole in `[0, maximum]` or out of range beyond `maximum` — `get k`
returns `T::default()`. -/
theorem C2_absent_default {T : Type} [Inhabited T] (keys : List Nat)
    (values : List T) (size : Nat) (arr : SparseArray T)
    (h : SparseArray.create keys values size = some arr)
    (k : Nat) (hk : k ∉ keys) : arr.get k = default :=
  create_get_default keys values size arr h k hk

theorem C2_absent_default_witness :
    (⟨[0, 1, 5, 7, 99, 99], [0, 0, 123, 456, 789, 101112, 0], 99⟩ :
      SparseArray Nat).get 6 = default ∧
    (⟨[0, 1, 5, 7, 99, 99], [0, 0, 123, 456, 789, 101112, 0], 99⟩ :
      SparseArray Nat).get 1000 = default :=
  ⟨C2_absent_default [1, 99, 7, 5] [123, 101112, 789, 456] 100 _ create_example
      6 (by decide),
   C2_absent_default [1, 99, 7, 5] [123, 101112, 789, 456] 100 _ create_example
      1000 (by decide)⟩

/-- C3 (amended): in `create`, values slot 1 holds the value paired with the
FIRST raw key `keys[0]` when that key equals zero (default otherwise), and the
trailing slot `values[n+2]` holds the value paired with the LAST raw key
`keys[n-1]` when that key equals `maximum` (default otherwise).  The source
tests the first and last entries of the unsorted input, not the smallest and
largest keys. -/
theorem C3_boundary_slots {T : Type} [Inhabited T] (keys : List Nat)
    (values : List T) (size : Nat) (arr : SparseArray T)
    (h : SparseArray.create keys values size = some arr) :
    arr.values.getD 1 default =
      (if keys.getD 0 0 = 0 then values.getD 0 default else default) ∧
    arr.values.getD (keys.length + 2) default =
      (if keys.getD (keys.length - 1) 0 = size - 1 then
        values.getD (keys.length - 1) default else default) :=
  create_boundary_slots keys values size arr h

theorem C3_boundary_slots_witness :
    (⟨[0, 1, 5, 7, 99, 99], [0, 0, 123, 456, 789, 101112, 0], 99⟩ :
      SparseArray Nat).values.getD 1 default =
      (if [1, 99, 7, 5].getD 0 0 = 0 then
        ([123, 101112, 789, 456] : List Nat).getD 0 default else default) ∧
    (⟨[0, 1, 5, 7, 99, 99], [0, 0, 123, 456, 789, 101112, 0], 99⟩ :
      SparseArray Nat).values.getD ([1, 99, 7, 5].length + 2) default =
      (if [1, 99, 7, 5].getD ([1, 99, 7, 5].length - 1) 0 = 100 - 1 then
        ([123, 101112, 789, 456] : List Nat).getD ([1, 99, 7, 5].length - 1) default
       else default) :=
  C3_boundary_slots [1, 99, 7, 5] [123, 101112, 789, 456] 100 _ create_example

/-- C3 counterexample to the original claim: for keys `[5, 0]` the SMALLEST
raw key (`0`, at position 1, paired with value `20`) equals zero, yet values
slot 1 is the default `0`, not `20`, because the source inspects the first raw
key `keys[0] = 5`. -/
theorem C3_counterexample :
    SparseArray.create [5, 0] ([10, 20] : List Nat) 6 =
      some ⟨[0, 0, 5, 5], [0, 0, 20, 10, 0], 5⟩ ∧
    [5, 0].getD 1 0 = 0 ∧
    (⟨[0, 0, 5, 5], [0, 0, 20, 10, 0], 5⟩ : SparseArray Nat).values.getD 1 default ≠
      ([10, 20] : List Nat).getD 1 default := by
  refine ⟨?_, by decide, by decide⟩
  simp [SparseArray.create, sort_advanced, get_shuffle_indices, shuffleLoop, findSlot,
    quicksort, quicksortRecursive, partitionL, partitionLoop, listSwap,
    populateValues, List.range_succ]
  norm_num [FIELD_MODULUS]

set_option maxRecDepth 40000 in
/-- C4: on the repository's own serialization fixture the emitted text starts
with the bare header and no declared-name prefix, so it is not byte-exact
with respect to the documented template: the key, value and maximum lines
match, but the header the repository's test `test_sparse_array_noir_representation`
expects differs from what the code produces. -/
theorem C4_serialization_bug :
    SparseArray.create [0, 99999, 7, 4294967295]
        ([123, 101112, 789, 456] : List Nat) 4294967296 =
      some ⟨[0, 0, 7, 99999, 4294967295, 4294967295],
        [0, 123, 123, 789, 101112, 456, 456], 4294967295⟩ ∧
    SparseArray.to_noir_string
      ⟨[0, 0, 7, 99999, 4294967295, 4294967295],
        [0, 123, 123, 789, 101112, 456, 456], 4294967295⟩ none =
      some ("SparseArray<4, Field> = SparseArray \x7b\n    keys: [0x00000000, 0x00000000, 0x00000007, 0x0001869f, 0xffffffff, 0xffffffff],\n    values: [0x00000000, 0x0000007b, 0x0000007b, 0x00000315, 0x00018af8, 0x000001c8, 0x000001c8],\n    maximum: 0xffffffff\n\x7d;") ∧
    ("SparseArray<4, Field> = SparseArray \x7b\n    keys: [0x00000000, 0x00000000, 0x00000007, 0x0001869f, 0xffffffff, 0xffffffff],\n    values: [0x00000000, 0x0000007b, 0x0000007b, 0x00000315, 0x00018af8, 0x000001c8, 0x000001c8],\n    maximum: 0xffffffff\n\x7d;" : String) ≠
      "sparse_array::SparseArray<Field, 4> = sparse_array::SparseArray \x7b\n    keys: [0x00000000, 0x00000000, 0x00000007, 0x0001869f, 0xffffffff, 0xffffffff],\n    values: [0x00000000, 0x0000007b, 0x0000007b, 0x00000315, 0x00018af8, 0x000001c8, 0x000001c8],\n    maximum: 0xffffffff\n\x7d;" := by
  refine ⟨?_, by decide, by decide⟩
  simp [SparseArray.create, sort_advanced, get_shuffle_indices, shuffleLoop, findSlot,
    quicksort, quicksortRecursive, partitionL, partitionLoop, listSwap,
    populateValues, List.range_succ]
  norm_num [FIELD_MODULUS]

/-- C5 (amended): `create` fails fatally when some key is `≥ P`, when
`maximum = size - 1 ≥ P`, or when `maximum` is below some key; and when the
keys are NON-EMPTY, `keys.length == values.length`, `size ≥ 1` and all the
bounds hold, construction succeeds.  (The original claim omitted the
non-emptiness requirement: see the counterexample.) -/
theorem C5_bound_enforcement {T : Type} [Inhabited T] (keys : List Nat)
    (values : List T) (size : Nat) :
    ((∃ k, k ∈ keys ∧ FIELD_MODULUS ≤ k) →
      SparseArray.create keys values size = none) ∧
    (1 ≤ size → FIELD_MODULUS ≤ size - 1 →
      SparseArray.create keys values size = none) ∧
    (1 ≤ size → (∃ k, k ∈ keys ∧ size - 1 < k) →
      SparseArray.create keys values size = none) ∧
    (keys ≠ [] → keys.length = values.length → 1 ≤ size →
      (∀ k, k ∈ keys → k < FIELD_MODULUS) → size - 1 < FIELD_MODULUS →
      (∀ k, k ∈ keys → k ≤ size - 1) →
      (SparseArray.create keys values size).isSome) :=
  ⟨fun h => create_none_of_key_ge keys values size h,
   fun h1 h2 => create_none_of_max_ge keys values size h1 h2,
   fun h1 h2 => create_none_of_max_lt_key keys values size h1 h2,
   fun h1 h2 h3 h4 h5 h6 => create_isSome keys values size h1 h2 h3 h4 h5 h6⟩

theorem C5_bound_enforcement_witness :
    (SparseArray.create [5, 0] ([10, 20] : List Nat) 6).isSome ∧
    SparseArray.create [10] ([7] : List Nat) 5 = none :=
  ⟨(C5_bound_enforcement [5, 0] ([10, 20] : List Nat) 6).2.2.2 (by decide)
      (by decide) (by decide) (by decide) (by decide) (by decide),
   (C5_bound_enforcement [10] ([7] : List Nat) 5).2.2.1 (by decide)
      ⟨10, by decide, by decide⟩⟩

/-- C5 counterexample to the original claim's success direction: the empty
key list satisfies every stated precondition (equal lengths, every key bound
vacuously, `maximum = 4 < P`), yet construction fails. -/
theorem C5_counterexample :
    ([] : List Nat).length = ([] : List Nat).length ∧
    (∀ k, k ∈ ([] : List Nat) → k < FIELD_MODULUS) ∧
    (1 : Nat) ≤ 5 ∧ (5 : Nat) - 1 < FIELD_MODULUS ∧
    (∀ k, k ∈ ([] : List Nat) → k ≤ 5 - 1) ∧
    SparseArray.create ([] : List Nat) ([] : List Nat) 5 = none :=
  ⟨rfl, by decide, by decide, by decide, by decide,
   create_none_of_empty ([] : List Nat) 5⟩

/-- C7: for every non-empty input, `sort_advanced` succeeds and returns an
ascending-sorted permutation of the input together with `sort_indices` such
that `sorted[sort_indices[i]] = input[i]` for every original position `i`,
with `sort_indices` injective — every sorted position is claimed exactly once,
also on inputs with duplicate keys. -/
theorem C7_ordering_engine (input : List Nat) (hne : input ≠ []) :
    ∃ r, sort_advanced input = some r ∧
      r.sorted.Perm input ∧ SortedLe r.sorted ∧
      r.sort_indices.length = input.length ∧
      (∀ i, i < input.length → r.sort_indices.getD i 0 < input.length ∧
        r.sorted.getD (r.sort_indices.getD i 0) 0 = input.getD i 0) ∧
      (∀ a b, a < b → b < input.length →
        r.sort_indices.getD a 0 ≠ r.sort_indices.getD b 0) := by
  obtain ⟨r, h1, -, h2, h3, -, h4, h5, h6, -⟩ := sort_advanced_spec input hne
  exact ⟨r, h1, h2, h3, h4, h5, h6⟩

theorem C7_ordering_engine_witness :
    ∃ r, sort_advanced [5, 0, 7] = some r ∧
      r.sorted.Perm [5, 0, 7] ∧ SortedLe r.sorted ∧
      r.sort_indices.length = [5, 0, 7].length ∧
      (∀ i, i < [5, 0, 7].length →
        r.sort_indices.getD i 0 < [5, 0, 7].length ∧
        r.sorted.getD (r.sort_indices.getD i 0) 0 = [5, 0, 7].getD i 0) ∧
      (∀ a b, a < b → b < [5, 0, 7].length →
        r.sort_indices.getD a 0 ≠ r.sort_indices.getD b 0) :=
  C7_ordering_engine [5, 0, 7] (by decide)

/-- C8: on every constructed table, lookup is total and pure — the checked
model of `get`, in which every vector access and the loop bound are verified,
returns `some` of exactly the value `get` computes, for every index of the
field domain; being a function of the table and the index alone, repeated
calls agree and the table is never mutated. -/
theorem C8_lookup_total {T : Type} [Inhabited T] (keys : List Nat)
    (values : List T) (size : Nat) (arr : SparseArray T)
    (h : SparseArray.create keys values size = some arr) (index : Nat) :
    arr.getChecked index = some (arr.get index) :=
  create_getChecked keys values size arr h index

theorem C8_lookup_total_witness :
    (⟨[0, 1, 5, 7, 99, 99], [0, 0, 123, 456, 789, 101112, 0], 99⟩ :
      SparseArray Nat).getChecked 123456 =
      some ((⟨[0, 1, 5, 7, 99, 99], [0, 0, 123, 456, 789, 101112, 0], 99⟩ :
        SparseArray Nat).get 123456) :=
  C8_lookup_total [1, 99, 7, 5] [123, 101112, 789, 456] 100 _ create_example 123456

/-- C9: when the original keys contain duplicate occurrences of a key, `get`
on that key returns the value paired with its LAST occurrence in the original
input order: position `i` holds the last occurrence of `keys[i]` exactly when
no later position carries the same key, and then the lookup returns
`values[i]`. -/
theorem C9_duplicate_last_occurrence {T : Type} [Inhabited T] (keys : List Nat)
    (values : List T) (size : Nat) (arr : SparseArray T)
    (h : SparseArray.create keys values size = some arr)
    (i : Nat) (hi : i < keys.length)
    (hlast : ∀ i', i < i' → i' < keys.length → keys.getD i' 0 ≠ keys.getD i 0) :
    arr.get (keys.getD i 0) = values.getD i default :=
  create_get_last keys values size arr h i hi hlast

theorem C9_duplicate_last_occurrence_witness :
    (⟨[0, 1, 1, 9], [0, 0, 10, 20, 0], 9⟩ : SparseArray Nat).get
      ([1, 1].getD 1 0) = ([10, 20] : List Nat).getD 1 default :=
  C9_duplicate_last_occurrence [1, 1] [10, 20] 10 _ create_dup_example 1
    (by decide)
    (by intro i' h1 h2; simp only [List.length_cons, List.length_nil] at h2; omega)

/-- C10: `create` on an empty key slice fails fatally even when the length
check and every size bound are satisfied: the sort verification loop's bound
`sorted.len() - 1` underflows on length zero, so a non-empty key set is an
undocumented precondition of the construction API. -/
theorem C10_empty_keys_fail {T : Type} [Inhabited T] (values : List T)
    (size : Nat) (hlen : values.length = 0) (hsz : 1 ≤ size)
    (hP : size - 1 < FIELD_MODULUS) :
    sort_advanced ([] : List Nat) = none ∧
    SparseArray.create ([] : List Nat) values size = none :=
  ⟨sort_advanced_nil, create_none_of_empty values size⟩

theorem C10_empty_keys_fail_witness :
    sort_advanced ([] : List Nat) = none ∧
    SparseArray.create ([] : List Nat) ([] : List Nat) 5 = none :=
  C10_empty_keys_fail ([] : List Nat) 5 rfl (by decide) (by decide)
